import Mathlib

/-!
Shallow embedding of the ScopeGuard-AI SOW review engine
(src/extractor.py, src/nlp_rules.py, src/reporter.py).

Text is modelled as `List Char` (named `Str`).  Python `re` usage in the
source is limited to small patterns built from case-insensitive literals,
the classes `\s` `\d` `\w`, the quantifiers `+` `?` `{4}` and a single
capture group; the engine below implements exactly those constructs with
greedy matching (for these patterns greedy matching without backtracking
coincides with Python's leftmost-greedy semantics, since no optional or
repeated element can consume a character that the following token needs).
-/

namespace ScopeGuard

abbrev Str := List Char

/-- Whitespace characters recognised by Python `str.strip` / `\s` (ASCII). -/
def isPySpace (c : Char) : Bool :=
  c = ' ' || c = '\t' || c = '\n' || c = '\r' || c = '\x0b' || c = '\x0c'

/-- Characters matched by the regex `[ \t]` (used by `re.sub(r'[ \t]+', ' ', _)`). -/
def isHT (c : Char) : Bool :=
  c = ' ' || c = '\t'

/-- Characters matched by the regex class `\w` (ASCII view). -/
def isWordChar (c : Char) : Bool :=
  c.isAlphanum || c = '_'

/-- Remove a trailing run of whitespace (helper for `pstrip`). -/
def rstripDrop : Str → Str
  | [] => []
  | c :: r =>
    match rstripDrop r with
    | [] => if isPySpace c then [] else [c]
    | h :: t => c :: h :: t

/-- Python `str.strip()`: drop leading and trailing whitespace. -/
def pstrip (l : Str) : Str :=
  rstripDrop (l.dropWhile isPySpace)

/-- Python `str.split('\n')`. -/
def splitNL : Str → List Str
  | [] => [[]]
  | c :: r =>
    if c = '\n' then [] :: splitNL r
    else
      match splitNL r with
      | [] => [[c]]
      | h :: t => (c :: h) :: t

/-- Python `'\n'.join(_)`. -/
def joinNL : List Str → Str
  | [] => []
  | l :: ls =>
    match ls with
    | [] => l
    | _ :: _ => l ++ '\n' :: joinNL ls

/-- Python `str.split('\n\n')`. -/
def splitNN : Str → List Str
  | [] => [[]]
  | [c] => [[c]]
  | c :: d :: r =>
    if c = '\n' && d = '\n' then [] :: splitNN r
    else
      match splitNN (d :: r) with
      | [] => [[c]]
      | h :: t => (c :: h) :: t

/-- `re.sub(r'[ \t]+', ' ', _)`: the flag records whether the previous
character belonged to a `[ \t]` run already replaced by a space. -/
def collapseWsAux : Bool → Str → Str
  | _, [] => []
  | prev, c :: r =>
    if isHT c then
      if prev then collapseWsAux true r else ' ' :: collapseWsAux true r
    else
      c :: collapseWsAux false r

def collapseWs (s : Str) : Str :=
  collapseWsAux false s

/-- Does `hay` start with `needle`? -/
def beginsWith : Str → Str → Bool
  | [], _ => true
  | _ :: _, [] => false
  | a :: as, b :: bs => a = b && beginsWith as bs

/-- Python substring containment `needle in hay`. -/
def hasSub (needle : Str) : Str → Bool
  | [] => beginsWith needle []
  | c :: t => beginsWith needle (c :: t) || hasSub needle t

/-- Python `str.title()` restricted to what the source feeds it
(section identifiers): capitalise a letter after a non-letter,
lowercase a letter after a letter. -/
def pyTitleAux : Bool → Str → Str
  | _, [] => []
  | prevAlpha, c :: r =>
    if c.isAlpha then
      (if prevAlpha then c.toLower else c.toUpper) :: pyTitleAux true r
    else
      c :: pyTitleAux false r

def pyTitle (s : Str) : Str :=
  pyTitleAux false s

/-! ### A small regex engine covering the patterns used by the source -/

inductive RElem where
  | lit (c : Char)
  | digit
  | space
  | word
deriving DecidableEq

/-- Single-character matching; literals are case-insensitive
(every source pattern is compiled with `re.IGNORECASE` or applied to a
lowercased line). -/
def RElem.mtch : RElem → Char → Bool
  | .lit c, d => c.toLower = d.toLower
  | .digit, d => d.isDigit
  | .space, d => isPySpace d
  | .word, d => isWordChar d

inductive RTok where
  | one (e : RElem)
  | plus (e : RElem)
  | opt (e : RElem)
  | grpL
  | grpR
deriving DecidableEq

abbrev RPat := List RTok

structure MatchRes where
  stop : Nat
  grp : Str
deriving DecidableEq

/-- Match a pattern at the start of the input, returning the end offset
(`match.end()`) and the text captured by group 1 (empty if no group).
`pos` is the offset consumed so far, `ing` whether we are inside the
capture group, `acc` the capture accumulated so far. -/
def rmAux : List RTok → Str → Nat → Bool → Str → Option MatchRes
  | [], _, pos, _, acc => some ⟨pos, acc⟩
  | RTok.grpL :: ts, s, pos, _, acc => rmAux ts s pos true acc
  | RTok.grpR :: ts, s, pos, _, acc => rmAux ts s pos false acc
  | RTok.one _ :: _, [], _, _, _ => none
  | RTok.one e :: ts, c :: s, pos, ing, acc =>
    if e.mtch c then rmAux ts s (pos + 1) ing (if ing then acc ++ [c] else acc)
    else none
  | RTok.opt _ :: ts, [], pos, ing, acc => rmAux ts [] pos ing acc
  | RTok.opt e :: ts, c :: s, pos, ing, acc =>
    if e.mtch c then rmAux ts s (pos + 1) ing (if ing then acc ++ [c] else acc)
    else rmAux ts (c :: s) pos ing acc
  | RTok.plus e :: ts, s, pos, ing, acc =>
    let run := s.takeWhile e.mtch
    if run.isEmpty then none
    else rmAux ts (s.drop run.length) (pos + run.length) ing
      (if ing then acc ++ run else acc)

/-- Python `re.match(pattern, s)`: anchored at the start. -/
def rmatch (p : RPat) (s : Str) : Option MatchRes :=
  rmAux p s 0 false []

structure SearchRes where
  g0 : Str
  g1 : Str
deriving DecidableEq

/-- Python `re.search(pattern, s)`: try each start offset left to right;
returns `match.group(0)` and `match.group(1)`. -/
def rsearch (p : RPat) : Str → Option SearchRes
  | [] => (rmatch p []).map (fun m => ⟨[], m.grp⟩)
  | c :: r =>
    match rmatch p (c :: r) with
    | some m => some ⟨(c :: r).take m.stop, m.grp⟩
    | none => rsearch p r

/-- A sequence of case-insensitive literal characters. -/
def lits (s : String) : RPat :=
  s.toList.map (fun c => RTok.one (RElem.lit c))

/-- `\s+` -/
def wsp : RTok := RTok.plus RElem.space

/-- `s?` -/
def optS : RTok := RTok.opt (RElem.lit 's')

/-! ### extractor.py : TextExtractor -/

/-- `TextExtractor.common_headers`. -/
def common_headers : List RPat :=
  [ lits "page " ++ [RTok.plus RElem.digit] ++ lits " of " ++ [RTok.plus RElem.digit]
  , lits "confidential"
  , lits "draft"
  , lits "version " ++ [RTok.plus RElem.digit, RTok.one (RElem.lit '.'), RTok.plus RElem.digit]
  , lits "© " ++ [RTok.one RElem.digit, RTok.one RElem.digit, RTok.one RElem.digit, RTok.one RElem.digit]
  , lits "proprietary" ]

/-- `TextExtractor.common_footers`. -/
def common_footers : List RPat :=
  [ lits "page " ++ [RTok.plus RElem.digit]
  , lits "prepared by:"
  , lits "approved by:"
  , lits "date:"
  , lits "revision:" ]

/-- `TextExtractor._is_header_footer`: lowercase the line, then
`re.search` each header pattern, then each footer pattern. -/
def is_header_footer (line : Str) : Bool :=
  let low := line.map Char.toLower
  common_headers.any (fun p => (rsearch p low).isSome)
    || common_footers.any (fun p => (rsearch p low).isSome)

/-- Characters kept by `re.sub(r'[^\w\s\.\,\;\:\!\?\-\(\)\[\]\x7b\x7d\n]', '', _)`. -/
def allowedChar (c : Char) : Bool :=
  isWordChar c || isPySpace c ||
    c ∈ ['.', ',', ';', ':', '!', '?', '-', '(', ')', '[', ']', '\x7b', '\x7d', '\n']

/-- `TextExtractor.clean_text`. -/
def clean_text (text : Str) : Str :=
  if text.isEmpty then []
  else
    let cleaned_lines :=
      ((splitNL text).map pstrip).filter (fun l => !l.isEmpty && !is_header_footer l)
    let joined := joinNL cleaned_lines
    let collapsed := collapseWs joined
    let filtered := collapsed.filter allowedChar
    pstrip filtered

/-- The 9 section identifiers, in the declaration order of the `sections`
dict literal in `TextExtractor.extract_sections`. -/
def sectionNames : List Str :=
  [ "project_overview".toList
  , "scope".toList
  , "timeline".toList
  , "materials".toList
  , "costs".toList
  , "payment_terms".toList
  , "deliverables".toList
  , "quality_standards".toList
  , "legal_clauses".toList ]

/-- The initial section map: all 9 keys bound to the empty string. -/
def initSections : List (Str × Str) :=
  sectionNames.map (fun n => (n, []))

/-- The `section_headers` table of `TextExtractor.extract_sections`,
in declared order. -/
def section_headers : List (Str × List RPat) :=
  [ ("project_overview".toList,
      [ lits "project" ++ [wsp] ++ lits "overview"
      , lits "introduction"
      , lits "background"
      , lits "purpose"
      , lits "project" ++ [wsp] ++ lits "description" ])
  , ("scope".toList,
      [ lits "scope" ++ [wsp] ++ lits "of" ++ [wsp] ++ lits "work"
      , lits "scope"
      , lits "work" ++ [wsp] ++ lits "scope"
      , lits "project" ++ [wsp] ++ lits "scope"
      , lits "statement" ++ [wsp] ++ lits "of" ++ [wsp] ++ lits "work" ])
  , ("timeline".toList,
      [ lits "timeline"
      , lits "schedule"
      , lits "duration"
      , lits "deadline"
      , lits "milestone"
      , lits "project" ++ [wsp] ++ lits "schedule"
      , lits "time" ++ [wsp] ++ lits "frame" ])
  , ("materials".toList,
      [ lits "materials"
      , lits "equipment"
      , lits "supplies"
      , lits "resources"
      , lits "material" ++ [wsp] ++ lits "requirements" ])
  , ("costs".toList,
      [ lits "cost" ++ [optS]
      , lits "budget"
      , lits "pricing"
      , lits "estimate"
      , lits "financial"
      , lits "cost" ++ [wsp] ++ lits "breakdown"
      , lits "budgetary" ])
  , ("payment_terms".toList,
      [ lits "payment" ++ [wsp] ++ lits "term" ++ [optS]
      , lits "payment"
      , lits "invoice"
      , lits "billing"
      , lits "payment" ++ [wsp] ++ lits "schedule" ])
  , ("deliverables".toList,
      [ lits "deliverable" ++ [optS]
      , lits "output"
      , lits "result"
      , lits "product"
      , lits "delivery" ])
  , ("quality_standards".toList,
      [ lits "quality" ++ [wsp] ++ lits "standard" ++ [optS]
      , lits "quality"
      , lits "standard"
      , lits "specification"
      , lits "requirement"
      , lits "quality" ++ [wsp] ++ lits "assurance" ])
  , ("legal_clauses".toList,
      [ lits "legal" ++ [wsp] ++ lits "clause" ++ [optS]
      , lits "legal"
      , lits "clause"
      , lits "liability"
      , lits "warranty"
      , lits "indemnification"
      , lits "terms" ++ [wsp] ++ lits "and" ++ [wsp] ++ lits "conditions" ])
  ]

/-- The nested header-matching loops of `extract_sections`: scan
sections in declared order, patterns within a section in declared
order, stop at the first `re.match`; the second loop of the source
re-finds the same first matching pattern of the found section to take
`match.end()`, so both loops are fused here. -/
def find_section (line : Str) : Option (Str × Nat) :=
  section_headers.findSome? (fun sp =>
    sp.2.findSome? (fun p => (rmatch p line).map (fun m => (sp.1, m.stop))))

/-- Loop state of `extract_sections`: the `sections` dict,
`current_section` and `current_content`. -/
structure ExtState where
  secs : List (Str × Str)
  cur : Option Str
  acc : List Str
deriving DecidableEq

/-- `sections[k] = v` (every key written is one of the 9 present keys). -/
def setSec (m : List (Str × Str)) (k : Str) (v : Str) : List (Str × Str) :=
  m.map (fun p => if p.1 = k then (p.1, v) else p)

/-- `if current_section and current_content: sections[current_section] = '\n'.join(current_content).strip()`. -/
def saveSec (st : ExtState) : List (Str × Str) :=
  match st.cur with
  | some c => if st.acc.isEmpty then st.secs else setSec st.secs c (pstrip (joinNL st.acc))
  | none => st.secs

/-- One iteration of the `for line in lines` loop of `extract_sections`
(`line = raw.strip()` is inlined as `pstrip raw`). -/
def extract_step (st : ExtState) (raw : Str) : ExtState :=
  if (pstrip raw).isEmpty then st
  else
    match find_section (pstrip raw) with
    | some (name, stop) =>
      ⟨saveSec st, some name,
        if (pstrip ((pstrip raw).drop stop)).isEmpty then []
        else [pstrip ((pstrip raw).drop stop)]⟩
    | none =>
      match st.cur with
      | some _ => ⟨st.secs, st.cur, st.acc ++ [pstrip raw]⟩
      | none => st

/-- The header-driven part of `TextExtractor.extract_sections`
(before the fallback test). -/
def extract_sections_primary (text : Str) : List (Str × Str) :=
  saveSec ((splitNL text).foldl extract_step ⟨initSections, none, []⟩)

/-- The paragraph keyword table of `_fallback_section_extraction`,
one entry per `elif` branch, in branch order. -/
def fallback_keywords : List (Str × List Str) :=
  [ ("project_overview".toList, ["project overview".toList, "introduction".toList, "background".toList])
  , ("scope".toList, ["scope of work".toList, "scope".toList, "work scope".toList])
  , ("timeline".toList, ["timeline".toList, "schedule".toList, "duration".toList, "deadline".toList])
  , ("materials".toList, ["materials".toList, "equipment".toList, "supplies".toList])
  , ("costs".toList, ["cost".toList, "budget".toList, "pricing".toList, "estimate".toList])
  , ("payment_terms".toList, ["payment".toList, "invoice".toList, "billing".toList])
  , ("deliverables".toList, ["deliverable".toList, "output".toList, "result".toList])
  , ("quality_standards".toList, ["quality".toList, "standard".toList, "specification".toList])
  , ("legal_clauses".toList, ["legal".toList, "clause".toList, "liability".toList, "warranty".toList]) ]

/-- Append a paragraph to a section body (`sections[s] += '\n\n' + p` when
the body is non-empty, else `sections[s] = p`). -/
def fbAdd (m : List (Str × Str)) (k : Str) (para : Str) : List (Str × Str) :=
  m.map (fun p =>
    if p.1 = k then (p.1, if p.2.isEmpty then para else p.2 ++ '\n' :: '\n' :: para) else p)

/-- One iteration of the paragraph loop of `_fallback_section_extraction`:
the `elif` chain assigns the paragraph to the first section (in branch
order) one of whose keywords occurs in the lowercased paragraph. -/
def fbStep (m : List (Str × Str)) (para : Str) : List (Str × Str) :=
  match fallback_keywords.find?
      (fun e => e.2.any (fun k => hasSub k (para.map Char.toLower))) with
  | some e => fbAdd m e.1 para
  | none => m

/-- `TextExtractor._fallback_section_extraction`. -/
def fallback_section_extraction (text : Str) : List (Str × Str) :=
  (splitNN text).foldl fbStep initSections

/-- `TextExtractor.extract_sections`: run the header-driven pass, and if
no section received any content (`not any(sections.values())`) fall back
to paragraph keyword matching. -/
def extract_sections (text : Str) : List (Str × Str) :=
  let secs := extract_sections_primary text
  if secs.all (fun p => p.2.isEmpty) then fallback_section_extraction text else secs

/-! ### nlp_rules.py -/

/-- `CRITICAL_SECTIONS` of nlp_rules.py. -/
def CRITICAL_SECTIONS : List Str :=
  [ "project_overview".toList
  , "scope".toList
  , "timeline".toList
  , "materials".toList
  , "costs".toList
  , "payment_terms".toList
  , "deliverables".toList
  , "quality_standards".toList
  , "legal_clauses".toList ]

/-- An issue record.  The Python issues are dicts whose key set varies by
type; the type-specific fields (`section`, `term`, `patterns`) are always
present here and empty when the type does not carry them. -/
structure Issue where
  itype : Str
  severity : Str
  message : Str
  suggestion : Str
  sec : Str
  termv : Str
  pats : List Str
deriving DecidableEq

/-- `section.replace("_", "_").title()` as used in the missing-section
message (underscores to spaces, then `str.title()`). -/
def dispName (s : Str) : Str :=
  pyTitle (s.map (fun c => if c = '_' then ' ' else c))

/-- The issue dict built by `check_missing_sections` for one section. -/
def missingIssue (s : Str) : Issue :=
  ⟨"missing_section".toList, "Critical".toList,
   "Missing critical section: ".toList ++ dispName s,
   "Add a section for ".toList ++ dispName s ++ ".".toList,
   s, [], []⟩

/-- Python `sections.get(section)` on the section dict. -/
def getSec (m : List (Str × Str)) (k : Str) : Option Str :=
  (m.find? (fun p => p.1 = k)).map (fun p => p.2)

/-- `check_missing_sections`: a Critical issue for every critical section
whose entry is falsy (absent key or empty string), in declaration order. -/
def check_missing_sections (sections : List (Str × Str)) : List Issue :=
  CRITICAL_SECTIONS.filterMap (fun s =>
    if ((getSec sections s).getD []).isEmpty then some (missingIssue s) else none)

/-- `AMBIGUOUS_TERMS`: each entry keeps the raw pattern source (used in
the issue's `term` field and message) next to its compiled pattern. -/
def AMBIGUOUS_TERMS : List (Str × RPat) :=
  [ ("as per standard".toList, lits "as per standard")
  , ("TBD".toList, lits "TBD")
  , ("to be determined".toList, lits "to be determined")
  , ("as required".toList, lits "as required")
  , ("if necessary".toList, lits "if necessary")
  , ("subject to change".toList, lits "subject to change")
  , ("etc\\.".toList, lits "etc" ++ [RTok.one (RElem.lit '.')])
  , ("or equivalent".toList, lits "or equivalent")
  , ("as needed".toList, lits "as needed")
  , ("unless otherwise specified".toList, lits "unless otherwise specified") ]

/-- The issue dict built by `check_ambiguous_terms` for one term. -/
def ambiguousIssue (src : Str) : Issue :=
  ⟨"ambiguous_term".toList, "Warning".toList,
   "Ambiguous term found: \"".toList ++ src ++ "\"".toList,
   "Replace with specific details.".toList, [], src, []⟩

/-- One iteration of the `for term in AMBIGUOUS_TERMS` loop. -/
def ambStep (text : Str) (tp : Str × RPat) : Option Issue :=
  if (rsearch tp.2 text).isSome then some (ambiguousIssue tp.1) else none

/-- `check_ambiguous_terms`: one Warning issue per pattern that
`re.search` finds (case-insensitively) anywhere in the text. -/
def check_ambiguous_terms (text : Str) : List Issue :=
  AMBIGUOUS_TERMS.filterMap (ambStep text)

/-- `completion in (\d+) months` -/
def patCompletionMonths : RPat :=
  lits "completion in " ++ [RTok.grpL, RTok.plus RElem.digit, RTok.grpR] ++ lits " months"

/-- `phases? spanning (\d+) months` -/
def patPhasesMonths : RPat :=
  lits "phase" ++ [optS] ++ lits " spanning " ++ [RTok.grpL, RTok.plus RElem.digit, RTok.grpR]
    ++ lits " months"

/-- `start date:? (\w+ \d{4})` -/
def patStartDate : RPat :=
  lits "start date" ++ [RTok.opt (RElem.lit ':')] ++ lits " "
    ++ [RTok.grpL, RTok.plus RElem.word, RTok.one (RElem.lit ' '),
        RTok.one RElem.digit, RTok.one RElem.digit, RTok.one RElem.digit, RTok.one RElem.digit,
        RTok.grpR]

/-- `completion date:? (\w+ \d{4})` -/
def patCompletionDate : RPat :=
  lits "completion date" ++ [RTok.opt (RElem.lit ':')] ++ lits " "
    ++ [RTok.grpL, RTok.plus RElem.word, RTok.one (RElem.lit ' '),
        RTok.one RElem.digit, RTok.one RElem.digit, RTok.one RElem.digit, RTok.one RElem.digit,
        RTok.grpR]

/-- First entry of `CONTRADICTION_PATTERNS`, each side paired with its
raw pattern source text. -/
def contraPair1 : (Str × RPat) × (Str × RPat) :=
  (("completion in (\\d+) months".toList, patCompletionMonths),
   ("phases? spanning (\\d+) months".toList, patPhasesMonths))

/-- Second entry of `CONTRADICTION_PATTERNS`. -/
def contraPair2 : (Str × RPat) × (Str × RPat) :=
  (("start date:? (\\w+ \\d\x7b4\x7d)".toList, patStartDate),
   ("completion date:? (\\w+ \\d\x7b4\x7d)".toList, patCompletionDate))

/-- `CONTRADICTION_PATTERNS`. -/
def CONTRADICTION_PATTERNS : List ((Str × RPat) × (Str × RPat)) :=
  [contraPair1, contraPair2]

/-- The issue dict built by `check_contradictions` for one pattern pair. -/
def contradictionIssue (src1 src2 g0a g0b : Str) : Issue :=
  ⟨"contradiction".toList, "Critical".toList,
   "Potential contradiction: \"".toList ++ g0a ++ "\" vs. \"".toList ++ g0b ++ "\"".toList,
   "Clarify the timeline and ensure consistency.".toList, [], [], [src1, src2]⟩

/-- One iteration of the `for pattern1, pattern2 in CONTRADICTION_PATTERNS`
loop: if both sides match somewhere in the text and their first capture
groups differ, emit a Critical issue quoting both matched spans. -/
def contraStep (text : Str) (pp : (Str × RPat) × (Str × RPat)) : Option Issue :=
  match rsearch pp.1.2 text, rsearch pp.2.2 text with
  | some m1, some m2 =>
    if m1.g1 ≠ m2.g1 then
      some (contradictionIssue pp.1.1 pp.2.1 m1.g0 m2.g0)
    else none
  | _, _ => none

/-- `check_contradictions`. -/
def check_contradictions (text : Str) : List Issue :=
  CONTRADICTION_PATTERNS.filterMap (contraStep text)

/-- `analyze_sow_nlp`: the three checkers concatenated in fixed order. -/
def analyze_sow_nlp (full_text : Str) (sections : List (Str × Str)) : List Issue :=
  check_missing_sections sections ++ check_ambiguous_terms full_text
    ++ check_contradictions full_text

/-! ### reporter.py -/

/-- Default weight table of `assign_risk_score`. -/
def defaultWeights : List (Str × Int) :=
  [("Critical".toList, 10), ("Warning".toList, 5), ("Info".toList, 1)]

/-- Python `weights.get(sev, 1)`. -/
def wlookup (w : List (Str × Int)) (k : Str) (d : Int) : Int :=
  ((w.find? (fun p => p.1 = k)).map (fun p => p.2)).getD d

/-- `assign_risk_score(issues, weights=None)`: sum the weight of each
issue's severity, defaulting the table when none is supplied and the
weight to 1 when the severity is not in the table. -/
def assign_risk_score (issues : List Issue) (weights : Option (List (Str × Int))) : Int :=
  let w := weights.getD defaultWeights
  issues.foldl (fun score i => score + wlookup w i.severity 1) 0

/-! ### Key-set preservation lemmas (claim C1) -/

lemma setSec_map_fst (m : List (Str × Str)) (k v : Str) :
    (setSec m k v).map Prod.fst = m.map Prod.fst := by
  induction m with
  | nil => rfl
  | cons p t ih =>
    by_cases h : p.1 = k <;> simp [setSec, h] at ih ⊢ <;> exact ih

lemma saveSec_map_fst (st : ExtState) :
    (saveSec st).map Prod.fst = st.secs.map Prod.fst := by
  unfold saveSec
  rcases st.cur with _ | c
  · rfl
  · dsimp only
    split
    · rfl
    · exact setSec_map_fst _ _ _

lemma extract_step_secs_fst (st : ExtState) (raw : Str) :
    (extract_step st raw).secs.map Prod.fst = st.secs.map Prod.fst := by
  unfold extract_step
  split
  · rfl
  · split
    · exact saveSec_map_fst st
    · split <;> rfl

lemma foldl_extract_step_secs_fst (lines : List Str) (st : ExtState) :
    ((lines.foldl extract_step st).secs).map Prod.fst = st.secs.map Prod.fst := by
  induction lines generalizing st with
  | nil => rfl
  | cons l t ih => rw [List.foldl_cons, ih, extract_step_secs_fst]

lemma fbAdd_map_fst (m : List (Str × Str)) (k para : Str) :
    (fbAdd m k para).map Prod.fst = m.map Prod.fst := by
  induction m with
  | nil => rfl
  | cons p t ih =>
    by_cases h : p.1 = k <;> simp [fbAdd, h] at ih ⊢ <;> exact ih

lemma fbStep_map_fst (m : List (Str × Str)) (para : Str) :
    (fbStep m para).map Prod.fst = m.map Prod.fst := by
  unfold fbStep
  split
  · exact fbAdd_map_fst _ _ _
  · rfl

lemma foldl_fbStep_map_fst (paras : List Str) (m : List (Str × Str)) :
    ((paras.foldl fbStep m)).map Prod.fst = m.map Prod.fst := by
  induction paras generalizing m with
  | nil => rfl
  | cons p t ih => rw [List.foldl_cons, ih, fbStep_map_fst]

lemma initSections_map_fst : initSections.map Prod.fst = sectionNames := by
  simp only [initSections, List.map_map]
  exact List.map_id sectionNames

/-- C1: for every input text, `extract_sections` (including the fallback
path) returns a mapping whose key list is exactly the 9 fixed section
identifiers, in order — never more, never fewer; since every key is
always present, an unmatched section is bound to the empty string rather
than having its key absent. -/
theorem extract_sections_exactly_nine_keys (t : Str) :
    (extract_sections t).map Prod.fst = sectionNames := by
  unfold extract_sections
  dsimp only
  split
  · unfold fallback_section_extraction
    rw [foldl_fbStep_map_fst, initSections_map_fst]
  · unfold extract_sections_primary
    rw [saveSec_map_fst, foldl_extract_step_secs_fst]
    exact initSections_map_fst

/-! ### check_missing_sections lemmas (claims C10, C3) -/

lemma filterMap_congr_mem {α β : Type} {f g : α → Option β} :
    ∀ (l : List α), (∀ a ∈ l, f a = g a) → l.filterMap f = l.filterMap g
  | [], _ => rfl
  | a :: t, h => by
    rw [List.filterMap_cons, List.filterMap_cons, h a (List.mem_cons_self a t),
      filterMap_congr_mem t (fun b hb => h b (List.mem_cons_of_mem a hb))]

lemma getSec_cons (p : Str × Str) (m : List (Str × Str)) (s : Str) :
    getSec (p :: m) s = if p.1 = s then some p.2 else getSec m s := by
  by_cases h : p.1 = s <;> simp [getSec, List.find?_cons, h]

lemma missingIssue_sec (s : Str) : (missingIssue s).sec = s := rfl

lemma missing_sec_map (L : List Str) (p : Str → Bool) :
    ((L.filterMap (fun s => if p s then some (missingIssue s) else none)).map
      (fun i => i.sec)) = L.filter p := by
  induction L with
  | nil => rfl
  | cons a t ih =>
    by_cases h : p a <;>
      simp [List.filterMap_cons, h, ih, missingIssue_sec, List.filter_cons]

/-- C10: `check_missing_sections` is a total function of the section map
(it never raises); a key that is entirely absent behaves exactly like a
key bound to the empty string — adding an explicit empty binding for an
absent key leaves the emitted issues unchanged — and the issues cover, in
section declaration order, precisely the critical sections whose entry is
absent or empty, each as a Critical `missing_section` issue. -/
theorem check_missing_sections_absent_key_eq_empty
    (m : List (Str × Str)) (k : Str) (hk : getSec m k = none) :
    check_missing_sections ((k, []) :: m) = check_missing_sections m ∧
    (check_missing_sections m).map (fun i => i.sec) =
      CRITICAL_SECTIONS.filter (fun s => ((getSec m s).getD []).isEmpty) ∧
    ∀ i ∈ check_missing_sections m,
      i.severity = "Critical".toList ∧ i.itype = "missing_section".toList := by
  refine ⟨?_, missing_sec_map CRITICAL_SECTIONS _, ?_⟩
  · apply filterMap_congr_mem
    intro s _
    rw [getSec_cons]
    by_cases h : k = s
    · subst h
      rw [hk]
      simp
    · simp [h]
  · intro i hi
    rcases List.mem_filterMap.mp hi with ⟨s, _, hs⟩
    split at hs
    · cases hs
      exact ⟨rfl, rfl⟩
    · cases hs

/-- Witness for C10 at a concrete section map missing the timeline key. -/
theorem check_missing_sections_absent_key_eq_empty_witness :
    check_missing_sections (("timeline".toList, []) :: [("scope".toList, "x".toList)]) =
      check_missing_sections [("scope".toList, "x".toList)] ∧
    (check_missing_sections [("scope".toList, "x".toList)]).map (fun i => i.sec) =
      CRITICAL_SECTIONS.filter
        (fun s => ((getSec [("scope".toList, "x".toList)] s).getD []).isEmpty) ∧
    ∀ i ∈ check_missing_sections [("scope".toList, "x".toList)],
      i.severity = "Critical".toList ∧ i.itype = "missing_section".toList :=
  check_missing_sections_absent_key_eq_empty [("scope".toList, "x".toList)]
    "timeline".toList (by decide)

/-! ### assign_risk_score lemmas (claim C7) -/

lemma foldl_add_eq_sum (f : Issue → Int) (l : List Issue) :
    l.foldl (fun s i => s + f i) 0 = (l.map f).sum := by
  rw [List.sum_eq_foldl, List.foldl_map]

/-- C7: `assign_risk_score` returns the sum over the issues of the weight
of each issue's severity, looked up in the supplied table (or the default
`{Critical: 10, Warning: 5, Info: 1}` when none is supplied), with weight
1 for a severity not present in the table; on 2 Critical, 1 Warning and
1 Info issue under default weights it returns 26. -/
theorem assign_risk_score_weighted_sum
    (issues : List Issue) (w : List (Str × Int)) (sev : Str)
    (hsev : sev ∉ w.map Prod.fst) :
    assign_risk_score issues (some w) =
      (issues.map (fun i => wlookup w i.severity 1)).sum ∧
    assign_risk_score issues none =
      (issues.map (fun i => wlookup defaultWeights i.severity 1)).sum ∧
    wlookup w sev 1 = 1 ∧
    assign_risk_score [missingIssue "scope".toList, missingIssue "costs".toList,
      ambiguousIssue "TBD".toList,
      ⟨"note".toList, "Info".toList, [], [], [], [], []⟩] none = 26 := by
  refine ⟨foldl_add_eq_sum _ _, foldl_add_eq_sum _ _, ?_, by decide⟩
  unfold wlookup
  rw [List.find?_eq_none.mpr]
  · rfl
  · intro p hp
    simp only [decide_eq_true_eq]
    intro h
    exact hsev (h ▸ List.mem_map_of_mem Prod.fst hp)

/-- Witness for C7 at a concrete custom weight table and unknown severity. -/
theorem assign_risk_score_weighted_sum_witness :
    assign_risk_score [missingIssue "scope".toList] (some [("Critical".toList, (3 : Int))]) =
      ([missingIssue "scope".toList].map
        (fun i => wlookup [("Critical".toList, (3 : Int))] i.severity 1)).sum ∧
    assign_risk_score [missingIssue "scope".toList] none =
      ([missingIssue "scope".toList].map
        (fun i => wlookup defaultWeights i.severity 1)).sum ∧
    wlookup [("Critical".toList, (3 : Int))] "Fatal".toList 1 = 1 ∧
    assign_risk_score [missingIssue "scope".toList, missingIssue "costs".toList,
      ambiguousIssue "TBD".toList,
      ⟨"note".toList, "Info".toList, [], [], [], [], []⟩] none = 26 :=
  assign_risk_score_weighted_sum [missingIssue "scope".toList]
    [("Critical".toList, (3 : Int))] "Fatal".toList (by decide)

/-! ### check_ambiguous_terms lemmas (claim C6) -/

lemma ambiguousIssue_termv (s : Str) : (ambiguousIssue s).termv = s := rfl

lemma ambStep_some (text : Str) (tp : Str × RPat) (hs : (rsearch tp.2 text).isSome) :
    ambStep text tp = some (ambiguousIssue tp.1) := by
  simp [ambStep, hs]

lemma ambStep_none (text : Str) (tp : Str × RPat) (hs : ¬(rsearch tp.2 text).isSome) :
    ambStep text tp = none := by
  simp [ambStep, hs]

lemma ambiguous_countP_zero (text src : Str) :
    ∀ (L : List (Str × RPat)), src ∉ L.map Prod.fst →
    ((L.filterMap (ambStep text)).countP (fun i => i.termv = src)) = 0
  | [], _ => rfl
  | hd :: tl, h => by
    have hne : ¬(hd.1 = src) := fun he => h (he ▸ List.mem_map_of_mem Prod.fst (List.mem_cons_self hd tl))
    have htl : src ∉ tl.map Prod.fst := fun ht => h (List.mem_cons_of_mem _ ht)
    by_cases hs : (rsearch hd.2 text).isSome
    · rw [List.filterMap_cons_some (ambStep_some text hd hs), List.countP_cons,
        ambiguous_countP_zero text src tl htl]
      simp [ambiguousIssue_termv, hne]
    · rw [List.filterMap_cons_none (ambStep_none text hd hs)]
      exact ambiguous_countP_zero text src tl htl

lemma ambiguous_countP_aux (text src : Str) (p : RPat) :
    ∀ (L : List (Str × RPat)), (src, p) ∈ L → (L.map Prod.fst).Nodup →
    ((L.filterMap (ambStep text)).countP (fun i => i.termv = src)) =
      if (rsearch p text).isSome then 1 else 0
  | [], hmem, _ => absurd hmem (List.not_mem_nil _)
  | hd :: tl, hmem, hnd => by
    rw [List.map_cons, List.nodup_cons] at hnd
    rcases List.mem_cons.mp hmem with he | ht
    · subst he
      by_cases hs : (rsearch p text).isSome
      · rw [List.filterMap_cons_some (ambStep_some text _ hs), List.countP_cons,
          ambiguous_countP_zero text src tl hnd.1]
        simp [ambiguousIssue_termv, hs]
      · rw [List.filterMap_cons_none (ambStep_none text _ hs),
          ambiguous_countP_zero text src tl hnd.1]
        simp [hs]
    · have hsrc : src ∈ tl.map Prod.fst := by
        simpa using List.mem_map_of_mem Prod.fst ht
      have hne : ¬(hd.1 = src) := fun he => hnd.1 (he ▸ hsrc)
      by_cases hs : (rsearch hd.2 text).isSome
      · rw [List.filterMap_cons_some (ambStep_some text hd hs), List.countP_cons,
          ambiguous_countP_aux text src p tl ht hnd.2]
        simp [ambiguousIssue_termv, hne]
      · rw [List.filterMap_cons_none (ambStep_none text hd hs)]
        exact ambiguous_countP_aux text src p tl ht hnd.2

/-- C6: for every text and every ambiguous-term pattern, the ambiguous-term
checker emits at most one Warning per pattern: exactly one issue naming
that term when the pattern occurs (case-insensitively) anywhere in the
text — however many times it recurs — and none when it does not; every
emitted issue is a Warning `ambiguous_term` issue. -/
theorem check_ambiguous_terms_one_warning_per_term
    (text src : Str) (p : RPat) (h : (src, p) ∈ AMBIGUOUS_TERMS) :
    (check_ambiguous_terms text).countP (fun i => i.termv = src) =
      (if (rsearch p text).isSome then 1 else 0) ∧
    ∀ i ∈ check_ambiguous_terms text,
      i.severity = "Warning".toList ∧ i.itype = "ambiguous_term".toList := by
  constructor
  · exact ambiguous_countP_aux text src p AMBIGUOUS_TERMS h (by decide)
  · intro i hi
    rcases List.mem_filterMap.mp hi with ⟨tp, _, htp⟩
    unfold ambStep at htp
    split at htp
    · cases htp
      exact ⟨rfl, rfl⟩
    · cases htp

/-- Witness for C6: "as per standard" occurs twice, one Warning results. -/
theorem check_ambiguous_terms_one_warning_per_term_witness :
    (check_ambiguous_terms "as per standard, then again as per standard".toList).countP
        (fun i => i.termv = "as per standard".toList) =
      (if (rsearch (lits "as per standard")
            "as per standard, then again as per standard".toList).isSome then 1 else 0) ∧
    ∀ i ∈ check_ambiguous_terms "as per standard, then again as per standard".toList,
      i.severity = "Warning".toList ∧ i.itype = "ambiguous_term".toList :=
  check_ambiguous_terms_one_warning_per_term
    "as per standard, then again as per standard".toList
    "as per standard".toList (lits "as per standard") (by decide)

/-! ### check_contradictions lemmas (claim C4) -/

lemma contraStep_none_left (text : Str) (pp : (Str × RPat) × (Str × RPat))
    (h : rsearch pp.1.2 text = none) : contraStep text pp = none := by
  unfold contraStep
  rw [h]

lemma contraStep_none_right (text : Str) (pp : (Str × RPat) × (Str × RPat))
    (h : rsearch pp.2.2 text = none) : contraStep text pp = none := by
  unfold contraStep
  rw [h]
  rcases rsearch pp.1.2 text <;> rfl

lemma contraStep_both (text : Str) (pp : (Str × RPat) × (Str × RPat))
    (m1 m2 : SearchRes) (h1 : rsearch pp.1.2 text = some m1)
    (h2 : rsearch pp.2.2 text = some m2) :
    contraStep text pp =
      if m1.g1 ≠ m2.g1 then
        some (contradictionIssue pp.1.1 pp.2.1 m1.g0 m2.g0)
      else none := by
  unfold contraStep
  rw [h1, h2]

/-- C4: the first contradiction pattern pair.  If `completion in (\d+)
months` and `phases? spanning (\d+) months` both match the text (only the
first match of each is considered — `re.search`) and the captured
durations differ, `check_contradictions` emits exactly one issue, a
Critical one whose message quotes both matched spans; if the captured
durations are equal it emits nothing; and on any text where either
pattern of the pair is absent, no issue for that pair is emitted. -/
theorem check_contradictions_first_pair
    (text text2 : Str) (g0a g1a g0b g1b : Str)
    (h1 : rsearch patCompletionMonths text = some ⟨g0a, g1a⟩)
    (h2 : rsearch patPhasesMonths text = some ⟨g0b, g1b⟩)
    (h3 : rsearch patStartDate text = none ∨ rsearch patCompletionDate text = none)
    (h4 : rsearch patCompletionMonths text2 = none ∨ rsearch patPhasesMonths text2 = none) :
    (g1a ≠ g1b →
      check_contradictions text =
        [contradictionIssue "completion in (\\d+) months".toList
          "phases? spanning (\\d+) months".toList g0a g0b] ∧
      (contradictionIssue "completion in (\\d+) months".toList
          "phases? spanning (\\d+) months".toList g0a g0b).severity = "Critical".toList ∧
      (contradictionIssue "completion in (\\d+) months".toList
          "phases? spanning (\\d+) months".toList g0a g0b).message =
        "Potential contradiction: \"".toList ++ g0a ++ "\" vs. \"".toList
          ++ g0b ++ "\"".toList) ∧
    (g1a = g1b → check_contradictions text = []) ∧
    (∀ i ∈ check_contradictions text2,
      i.pats ≠ ["completion in (\\d+) months".toList,
        "phases? spanning (\\d+) months".toList]) := by
  have hstep2 : contraStep text contraPair2 = none := by
    rcases h3 with h3 | h3
    · exact contraStep_none_left text contraPair2 h3
    · exact contraStep_none_right text contraPair2 h3
  have hstep1 := contraStep_both text contraPair1 ⟨g0a, g1a⟩ ⟨g0b, g1b⟩ h1 h2
  refine ⟨?_, ?_, ?_⟩
  · intro hne
    refine ⟨?_, rfl, rfl⟩
    have hA : contraStep text contraPair1 =
        some (contradictionIssue "completion in (\\d+) months".toList
          "phases? spanning (\\d+) months".toList g0a g0b) := by
      rw [hstep1]
      dsimp only [contraPair1]
      rw [if_pos hne]
    unfold check_contradictions CONTRADICTION_PATTERNS
    rw [List.filterMap_cons_some hA, List.filterMap_cons_none hstep2, List.filterMap_nil]
  · intro heq
    have hA : contraStep text contraPair1 = none := by
      rw [hstep1]
      dsimp only [contraPair1]
      rw [if_neg (fun hcon => hcon heq)]
    unfold check_contradictions CONTRADICTION_PATTERNS
    rw [List.filterMap_cons_none hA, List.filterMap_cons_none hstep2, List.filterMap_nil]
  · intro i hi
    rcases List.mem_filterMap.mp hi with ⟨pp, hpp, hstep⟩
    have hp1 : contraStep text2 contraPair1 = none := by
      rcases h4 with h4 | h4
      · exact contraStep_none_left text2 contraPair1 h4
      · exact contraStep_none_right text2 contraPair1 h4
    rcases List.mem_cons.mp hpp with he | ht
    · rw [he, hp1] at hstep
      cases hstep
    · rcases List.mem_cons.mp ht with he2 | ht2
      · subst he2
        unfold contraStep at hstep
        rcases hs1 : rsearch contraPair2.1.2 text2 with _ | m1 <;>
          rcases hs2 : rsearch contraPair2.2.2 text2 with _ | m2 <;>
            rw [hs1, hs2] at hstep
        · cases hstep
        · cases hstep
        · cases hstep
        · dsimp only at hstep
          by_cases hg : m1.g1 ≠ m2.g1
          · rw [if_pos hg] at hstep
            cases hstep
            have hpats : (contradictionIssue contraPair2.1.1 contraPair2.2.1 m1.g0 m2.g0).pats
                = [contraPair2.1.1, contraPair2.2.1] := rfl
            rw [hpats]
            decide
          · rw [if_neg hg] at hstep
            cases hstep
      · cases ht2

/-- Witness for C4 on a text with differing durations (6 vs 12 months). -/
theorem check_contradictions_first_pair_witness :
    (("6".toList : Str) ≠ "12".toList →
      check_contradictions "completion in 6 months and phases spanning 12 months".toList =
        [contradictionIssue "completion in (\\d+) months".toList
          "phases? spanning (\\d+) months".toList
          "completion in 6 months".toList "phases spanning 12 months".toList] ∧
      (contradictionIssue "completion in (\\d+) months".toList
          "phases? spanning (\\d+) months".toList
          "completion in 6 months".toList "phases spanning 12 months".toList).severity =
        "Critical".toList ∧
      (contradictionIssue "completion in (\\d+) months".toList
          "phases? spanning (\\d+) months".toList
          "completion in 6 months".toList "phases spanning 12 months".toList).message =
        "Potential contradiction: \"".toList ++ "completion in 6 months".toList
          ++ "\" vs. \"".toList ++ "phases spanning 12 months".toList ++ "\"".toList) ∧
    (("6".toList : Str) = "12".toList →
      check_contradictions "completion in 6 months and phases spanning 12 months".toList = []) ∧
    (∀ i ∈ check_contradictions "nothing relevant here".toList,
      i.pats ≠ ["completion in (\\d+) months".toList,
        "phases? spanning (\\d+) months".toList]) :=
  check_contradictions_first_pair
    "completion in 6 months and phases spanning 12 months".toList
    "nothing relevant here".toList
    "completion in 6 months".toList "6".toList
    "phases spanning 12 months".toList "12".toList
    (by decide) (by decide) (Or.inl (by decide)) (Or.inl (by decide))

/-! ### splitNL / joinNL / pstrip facts -/

lemma splitNL_ne_nil : ∀ s : Str, splitNL s ≠ []
  | [] => by simp [splitNL]
  | c :: r => by
    unfold splitNL
    split
    · simp
    · rcases h : splitNL r with _ | ⟨h1, t1⟩ <;> simp

lemma splitNL_no_nl : ∀ s : Str, ∀ l ∈ splitNL s, '\n' ∉ l
  | [], l, hl => by
    simp [splitNL] at hl
    simp [hl]
  | c :: r, l, hl => by
    unfold splitNL at hl
    by_cases hc : c = '\n'
    · rw [if_pos hc] at hl
      rcases List.mem_cons.mp hl with he | ht
      · simp [he]
      · exact splitNL_no_nl r l ht
    · rw [if_neg hc] at hl
      rcases h : splitNL r with _ | ⟨h1, t1⟩
      · exact absurd h (splitNL_ne_nil r)
      · rw [h] at hl
        rcases List.mem_cons.mp hl with he | ht
        · subst he
          intro hmem
          rcases List.mem_cons.mp hmem with he2 | ht2
          · exact hc he2.symm
          · exact splitNL_no_nl r h1 (h ▸ List.mem_cons_self h1 t1) ht2
        · exact splitNL_no_nl r l (h ▸ List.mem_cons_of_mem h1 ht)

lemma splitNL_of_no_nl : ∀ l : Str, '\n' ∉ l → splitNL l = [l]
  | [], _ => rfl
  | c :: r, h => by
    have hc : ¬(c = '\n') := fun he => h (he ▸ List.mem_cons_self c r)
    have hr : '\n' ∉ r := fun hm => h (List.mem_cons_of_mem c hm)
    unfold splitNL
    rw [if_neg hc, splitNL_of_no_nl r hr]

lemma splitNL_cons (c : Char) (r : Str) :
    splitNL (c :: r) =
      if c = '\n' then [] :: splitNL r
      else
        match splitNL r with
        | [] => [[c]]
        | h :: t => (c :: h) :: t := rfl

lemma splitNL_append_nl : ∀ a b : Str, '\n' ∉ a →
    splitNL (a ++ '\n' :: b) = a :: splitNL b
  | [], b, _ => by
    show splitNL ('\n' :: b) = [] :: splitNL b
    rw [splitNL_cons, if_pos rfl]
  | c :: r, b, h => by
    have hc : ¬(c = '\n') := fun he => h (he ▸ List.mem_cons_self c r)
    have hr : '\n' ∉ r := fun hm => h (List.mem_cons_of_mem c hm)
    show splitNL (c :: (r ++ '\n' :: b)) = (c :: r) :: splitNL b
    rw [splitNL_cons, if_neg hc, splitNL_append_nl r b hr]

lemma splitNL_joinNL : ∀ L : List Str, L ≠ [] → (∀ l ∈ L, '\n' ∉ l) →
    splitNL (joinNL L) = L
  | [], h, _ => absurd rfl h
  | [l], _, hn => by
    show splitNL (joinNL [l]) = [l]
    have : joinNL [l] = l := rfl
    rw [this]
    exact splitNL_of_no_nl l (hn l (List.mem_cons_self l []))
  | l :: l2 :: t, _, hn => by
    have hj : joinNL (l :: l2 :: t) = l ++ '\n' :: joinNL (l2 :: t) := rfl
    rw [hj, splitNL_append_nl l _ (hn l (List.mem_cons_self l _)),
      splitNL_joinNL (l2 :: t) (by simp) (fun x hx => hn x (List.mem_cons_of_mem l hx))]

lemma dropWhile_head_not {p : Char → Bool} :
    ∀ (l : Str) (c : Char), (l.dropWhile p).head? = some c → p c = false
  | [], c, h => by cases h
  | d :: r, c, h => by
    rw [List.dropWhile_cons] at h
    split at h
    · exact dropWhile_head_not r c h
    · cases h
      rename_i hp
      exact Bool.of_not_eq_true hp

lemma rstripDrop_cons (d : Char) (r : Str) :
    rstripDrop (d :: r) =
      match rstripDrop r with
      | [] => if isPySpace d then [] else [d]
      | h :: t => d :: h :: t := rfl

lemma rstripDrop_head? : ∀ (l : Str) (c : Char),
    (rstripDrop l).head? = some c → l.head? = some c
  | [], c, h => by cases h
  | d :: r, c, h => by
    rw [rstripDrop_cons] at h
    rcases hr : rstripDrop r with _ | ⟨h1, t1⟩ <;> rw [hr] at h <;> dsimp only at h
    · by_cases hd : isPySpace d
      · rw [if_pos hd] at h
        cases h
      · rw [if_neg hd] at h
        cases h
        rfl
    · cases h
      rfl

lemma rstripDrop_getLast_not : ∀ (l : Str) (c : Char),
    (rstripDrop l).getLast? = some c → isPySpace c = false
  | [], c, h => by cases h
  | d :: r, c, h => by
    rw [rstripDrop_cons] at h
    rcases hr : rstripDrop r with _ | ⟨h1, t1⟩ <;> rw [hr] at h <;> dsimp only at h
    · by_cases hd : isPySpace d
      · rw [if_pos hd] at h
        cases h
      · rw [if_neg hd] at h
        have hcd : c = d := by
          have : ([d] : Str).getLast? = some d := rfl
          rw [this] at h
          cases h
          rfl
        rw [hcd]
        exact Bool.of_not_eq_true hd
    · rw [List.getLast?_cons_cons] at h
      exact rstripDrop_getLast_not r c (by rw [hr]; exact h)

lemma rstripDrop_eq_self : ∀ l : Str,
    (∀ c, l.getLast? = some c → isPySpace c = false) → rstripDrop l = l
  | [], _ => rfl
  | [d], h => by
    have hd : isPySpace d = false := h d rfl
    rw [rstripDrop_cons]
    dsimp only [rstripDrop]
    rw [hd]
    rfl
  | d :: e :: r, h => by
    have hr : rstripDrop (e :: r) = e :: r :=
      rstripDrop_eq_self (e :: r) (fun c hc => h c (by rw [List.getLast?_cons_cons]; exact hc))
    rw [rstripDrop_cons, hr]

lemma pstrip_eq_self (l : Str)
    (h1 : ∀ c, l.head? = some c → isPySpace c = false)
    (h2 : ∀ c, l.getLast? = some c → isPySpace c = false) : pstrip l = l := by
  unfold pstrip
  have hd : l.dropWhile isPySpace = l := by
    cases l with
    | nil => rfl
    | cons c r =>
      rw [List.dropWhile_cons, if_neg]
      rw [h1 c rfl]
      simp
  rw [hd]
  exact rstripDrop_eq_self l h2

lemma pstrip_head_not (l : Str) (c : Char) (h : (pstrip l).head? = some c) :
    isPySpace c = false := by
  unfold pstrip at h
  exact dropWhile_head_not l c (rstripDrop_head? _ c h)

lemma pstrip_getLast_not (l : Str) (c : Char) (h : (pstrip l).getLast? = some c) :
    isPySpace c = false := by
  unfold pstrip at h
  exact rstripDrop_getLast_not _ c h

lemma pstrip_idem (l : Str) : pstrip (pstrip l) = pstrip l :=
  pstrip_eq_self (pstrip l) (pstrip_head_not l) (pstrip_getLast_not l)

/-! ### getSec / setSec facts -/

lemma setSec_cons (p : Str × Str) (t : List (Str × Str)) (k v : Str) :
    setSec (p :: t) k v = (if p.1 = k then (p.1, v) else p) :: setSec t k v := rfl

lemma getSec_setSec (m : List (Str × Str)) (k v j : Str) :
    getSec (setSec m k v) j =
      if j = k then (getSec m k).map (fun _ => v) else getSec m j := by
  induction m with
  | nil =>
    by_cases hj : j = k <;> simp [getSec, setSec, hj]
  | cons p t ih =>
    rw [setSec_cons]
    by_cases hp : p.1 = k
    · rw [if_pos hp, getSec_cons]
      dsimp only
      by_cases hj : j = k
      · have hpj : p.1 = j := by rw [hp, hj]
        rw [if_pos hpj, if_pos hj, getSec_cons, if_pos hp]
        rfl
      · have hpj : ¬(p.1 = j) := fun he => hj (by rw [← he, hp])
        rw [if_neg hpj, ih, if_neg hj, if_neg hj, getSec_cons, if_neg hpj]
    · rw [if_neg hp, getSec_cons]
      by_cases hj : j = k
      · have hpj : ¬(p.1 = j) := fun he => hp (by rw [he, hj])
        rw [if_neg hpj, ih, if_pos hj, if_pos hj, getSec_cons, if_neg hp]
      · by_cases hpj : p.1 = j
        · rw [if_pos hpj, if_neg hj, getSec_cons, if_pos hpj]
        · rw [if_neg hpj, ih, if_neg hj, if_neg hj, getSec_cons, if_neg hpj]

lemma getSec_init_generic (L : List Str) (s : Str) :
    getSec (L.map (fun n => (n, ([] : Str)))) s = if s ∈ L then some [] else none := by
  induction L with
  | nil => simp [getSec]
  | cons a t ih =>
    by_cases ha : a = s
    · subst ha
      simp [getSec_cons]
    · rw [List.map_cons, getSec_cons, if_neg ha, ih]
      by_cases hs : s ∈ t <;> simp [hs, List.mem_cons, Ne.symm ha]

lemma getSec_init_of_mem (s : Str) (h : s ∈ sectionNames) :
    getSec initSections s = some [] := by
  unfold initSections
  rw [getSec_init_generic, if_pos h]

lemma find_section_name_mem (l s : Str) (k : Nat)
    (h : find_section l = some (s, k)) : s ∈ sectionNames := by
  rcases List.exists_of_findSome?_eq_some h with ⟨sp, hsp, hinner⟩
  rcases List.exists_of_findSome?_eq_some hinner with ⟨p, _, hp⟩
  rcases hm : rmatch p l with _ | m <;> rw [hm] at hp
  · cases hp
  · cases hp
    have : sp.1 ∈ section_headers.map Prod.fst := List.mem_map_of_mem Prod.fst hsp
    revert this
    have hnames : section_headers.map Prod.fst = sectionNames := by decide
    rw [hnames]
    exact id

/-! ### extract_step unfolding lemmas -/

lemma extract_step_empty (st : ExtState) (raw : Str) (h : pstrip raw = []) :
    extract_step st raw = st := by
  unfold extract_step
  rw [h]
  rfl

lemma extract_step_header_empty (st : ExtState) (raw s : Str) (k : Nat)
    (hs : pstrip raw ≠ []) (hf : find_section (pstrip raw) = some (s, k))
    (hafter : pstrip ((pstrip raw).drop k) = []) :
    extract_step st raw = ⟨saveSec st, some s, []⟩ := by
  unfold extract_step
  rw [if_neg (by simp only [List.isEmpty_iff]; exact hs), hf]
  dsimp only
  rw [hafter]
  rfl

lemma extract_step_body_some (secs : List (Str × Str)) (cur : Str) (acc : List Str)
    (raw : Str) (hs : pstrip raw ≠ []) (hf : find_section (pstrip raw) = none) :
    extract_step ⟨secs, some cur, acc⟩ raw = ⟨secs, some cur, acc ++ [pstrip raw]⟩ := by
  unfold extract_step
  rw [if_neg (by simp only [List.isEmpty_iff]; exact hs), hf]

lemma extract_step_body_none (secs : List (Str × Str)) (acc : List Str)
    (raw : Str) (hf : find_section (pstrip raw) = none) :
    extract_step ⟨secs, none, acc⟩ raw = ⟨secs, none, acc⟩ := by
  unfold extract_step
  by_cases he : (pstrip raw).isEmpty
  · rw [if_pos he]
  · rw [if_neg he, hf]

lemma saveSec_cur_none (m : List (Str × Str)) (acc : List Str) :
    saveSec ⟨m, none, acc⟩ = m := rfl

lemma saveSec_acc_nil (m : List (Str × Str)) (c : Str) :
    saveSec ⟨m, some c, []⟩ = m := rfl

lemma saveSec_acc_single (m : List (Str × Str)) (c x : Str) :
    saveSec ⟨m, some c, [x]⟩ = setSec m c (pstrip x) := rfl

/-- C9: when the same section's header line occurs twice, a later
occurrence that accumulates non-empty content replaces the previously
stored body entirely (the final body is the second body alone, never an
append of both), while a repeated header whose accumulated content is
empty leaves the earlier stored body unchanged.  Here `h` is a line
exactly matching section `s`'s header and `a`, `b` are body lines. -/
theorem repeated_header_replaces_body
    (h a b s : Str) (k : Nat)
    (hh : find_section h = some (s, k))
    (hafter : pstrip (h.drop k) = [])
    (hsh : pstrip h = h) (hhn : h ≠ [])
    (hna : find_section a = none) (hsa : pstrip a = a) (han : a ≠ [])
    (hnb : find_section b = none) (hsb : pstrip b = b) (hbn : b ≠ [])
    (hnlh : '\n' ∉ h) (hnla : '\n' ∉ a) (hnlb : '\n' ∉ b) :
    getSec (extract_sections_primary (joinNL [h, a, h, b])) s = some b ∧
    getSec (extract_sections_primary (joinNL [h, a, h])) s = some a := by
  have hmem : s ∈ sectionNames := find_section_name_mem h s k hh
  have hinit : getSec initSections s = some [] := getSec_init_of_mem s hmem
  have hstepH : ∀ st : ExtState, extract_step st h = ⟨saveSec st, some s, []⟩ := by
    intro st
    exact extract_step_header_empty st h s k (by rw [hsh]; exact hhn)
      (by rw [hsh]; exact hh) (by rw [hsh]; exact hafter)
  have hstepA : ∀ (m : List (Str × Str)) (c : Str) (acc : List Str),
      extract_step ⟨m, some c, acc⟩ a = ⟨m, some c, acc ++ [a]⟩ := by
    intro m c acc
    have hb := extract_step_body_some m c acc a (by rw [hsa]; exact han)
      (by rw [hsa]; exact hna)
    rw [hsa] at hb
    exact hb
  have hstepB : ∀ (m : List (Str × Str)) (c : Str) (acc : List Str),
      extract_step ⟨m, some c, acc⟩ b = ⟨m, some c, acc ++ [b]⟩ := by
    intro m c acc
    have hb := extract_step_body_some m c acc b (by rw [hsb]; exact hbn)
      (by rw [hsb]; exact hnb)
    rw [hsb] at hb
    exact hb
  constructor
  · have hsplit4 : splitNL (joinNL [h, a, h, b]) = [h, a, h, b] := by
      apply splitNL_joinNL _ (by simp)
      intro l hl
      simp only [List.mem_cons, List.not_mem_nil, or_false] at hl
      rcases hl with rfl | rfl | rfl | rfl <;> assumption
    unfold extract_sections_primary
    rw [hsplit4, List.foldl_cons, List.foldl_cons, List.foldl_cons, List.foldl_cons,
      List.foldl_nil]
    rw [hstepH ⟨initSections, none, []⟩, saveSec_cur_none, hstepA initSections s [],
      List.nil_append, hstepH ⟨initSections, some s, [a]⟩, saveSec_acc_single, hsa,
      hstepB (setSec initSections s a) s [], List.nil_append, saveSec_acc_single, hsb,
      getSec_setSec, if_pos rfl, getSec_setSec, if_pos rfl, hinit]
    rfl
  · have hsplit3 : splitNL (joinNL [h, a, h]) = [h, a, h] := by
      apply splitNL_joinNL _ (by simp)
      intro l hl
      simp only [List.mem_cons, List.not_mem_nil, or_false] at hl
      rcases hl with rfl | rfl | rfl <;> assumption
    unfold extract_sections_primary
    rw [hsplit3, List.foldl_cons, List.foldl_cons, List.foldl_cons, List.foldl_nil]
    rw [hstepH ⟨initSections, none, []⟩, saveSec_cur_none, hstepA initSections s [],
      List.nil_append, hstepH ⟨initSections, some s, [a]⟩, saveSec_acc_single, hsa,
      saveSec_acc_nil, getSec_setSec, if_pos rfl, hinit]
    rfl

/-! ### Scan order and leading-line dropping (claim C5) -/

lemma findSome?_pair_flatten {α β γ : Type} (f : α → β → Option γ) :
    ∀ L : List (α × List β),
    L.findSome? (fun sp => sp.2.findSome? (fun p => f sp.1 p)) =
      (L.flatMap (fun sp => sp.2.map (fun p => (sp.1, p)))).findSome?
        (fun np => f np.1 np.2)
  | [] => rfl
  | sp :: t => by
    rw [List.flatMap_cons, List.findSome?_append, List.findSome?_map,
      ← findSome?_pair_flatten f t, List.findSome?_cons]
    rcases hi : sp.2.findSome? (fun p => f sp.1 p) with _ | v
    · have : List.findSome? ((fun np : α × β => f np.1 np.2) ∘ fun p => (sp.1, p)) sp.2
          = none := hi
      rw [this]
      rfl
    · have : List.findSome? ((fun np : α × β => f np.1 np.2) ∘ fun p => (sp.1, p)) sp.2
          = some v := hi
      rw [this]
      rfl

lemma rmAux_stop_le : ∀ (ts : List RTok) (s : Str) (pos : Nat) (ing : Bool)
    (acc : Str) (m : MatchRes), rmAux ts s pos ing acc = some m →
    m.stop ≤ pos + s.length
  | [], s, pos, ing, acc, m, h => by
    cases h
    exact Nat.le_add_right pos s.length
  | RTok.grpL :: ts, s, pos, ing, acc, m, h =>
    rmAux_stop_le ts s pos true acc m h
  | RTok.grpR :: ts, s, pos, ing, acc, m, h =>
    rmAux_stop_le ts s pos false acc m h
  | RTok.one e :: ts, [], pos, ing, acc, m, h => by cases h
  | RTok.one e :: ts, c :: s, pos, ing, acc, m, h => by
    unfold rmAux at h
    split at h
    · have := rmAux_stop_le ts s (pos + 1) ing _ m h
      simp only [List.length_cons]
      omega
    · cases h
  | RTok.opt e :: ts, [], pos, ing, acc, m, h => by
    have := rmAux_stop_le ts [] pos ing acc m h
    simpa using this
  | RTok.opt e :: ts, c :: s, pos, ing, acc, m, h => by
    unfold rmAux at h
    split at h
    · have := rmAux_stop_le ts s (pos + 1) ing _ m h
      simp only [List.length_cons]
      omega
    · exact rmAux_stop_le ts (c :: s) pos ing acc m h
  | RTok.plus e :: ts, s, pos, ing, acc, m, h => by
    rw [show rmAux (RTok.plus e :: ts) s pos ing acc =
      (if (s.takeWhile e.mtch).isEmpty then none
       else rmAux ts (s.drop (s.takeWhile e.mtch).length)
         (pos + (s.takeWhile e.mtch).length) ing
         (if ing then acc ++ s.takeWhile e.mtch else acc)) from rfl] at h
    by_cases hrun : (s.takeWhile e.mtch).isEmpty
    · rw [if_pos hrun] at h
      cases h
    · rw [if_neg hrun] at h
      have hle := rmAux_stop_le ts (s.drop (s.takeWhile e.mtch).length)
        (pos + (s.takeWhile e.mtch).length) ing _ m h
      have htw : (s.takeWhile e.mtch).length ≤ s.length :=
        (List.takeWhile_sublist _).length_le
      rw [List.length_drop] at hle
      omega

lemma rmatch_stop_le (p : RPat) (s : Str) (m : MatchRes)
    (h : rmatch p s = some m) : m.stop ≤ s.length := by
  have := rmAux_stop_le p s 0 false [] m h
  simpa using this

lemma extract_fold_drops_leading (pre rest : List Str)
    (hpre : ∀ l ∈ pre, find_section (pstrip l) = none) :
    (pre ++ rest).foldl extract_step ⟨initSections, none, []⟩ =
      rest.foldl extract_step ⟨initSections, none, []⟩ := by
  induction pre with
  | nil => rfl
  | cons l t ih =>
    rw [List.cons_append, List.foldl_cons,
      extract_step_body_none initSections [] l (hpre l (List.mem_cons_self l t))]
    exact ih (fun x hx => hpre x (List.mem_cons_of_mem l hx))

/-- C5: the segmenter's header recognition scans sections in declared
order and patterns within a section in declared order, taking the first
match over that flattened scan order; a recognised header comes from an
anchored `re.match` of one of that section's patterns covering an initial
segment of the line; and lines that come before any recognised header
(from the initial state: no open section) leave the state untouched, so
they are dropped from every section body. -/
theorem segmenter_scan_order_and_drops_leading
    (line s : Str) (k : Nat) (pre rest : List Str)
    (hline : find_section line = some (s, k))
    (hpre : ∀ l ∈ pre, find_section (pstrip l) = none) :
    find_section line =
      (section_headers.flatMap (fun sp => sp.2.map (fun p => (sp.1, p)))).findSome?
        (fun np => (rmatch np.2 line).map (fun m => (np.1, m.stop))) ∧
    (∃ pats, (s, pats) ∈ section_headers ∧ ∃ p ∈ pats, ∃ m : MatchRes,
      rmatch p line = some m ∧ m.stop = k ∧ k ≤ line.length) ∧
    (pre ++ rest).foldl extract_step ⟨initSections, none, []⟩ =
      rest.foldl extract_step ⟨initSections, none, []⟩ := by
  refine ⟨?_, ?_, extract_fold_drops_leading pre rest hpre⟩
  · exact findSome?_pair_flatten
      (fun n p => (rmatch p line).map (fun m => (n, m.stop))) section_headers
  · rcases List.exists_of_findSome?_eq_some hline with ⟨sp, hsp, hinner⟩
    rcases List.exists_of_findSome?_eq_some hinner with ⟨p, hp, hcase⟩
    rcases hm : rmatch p line with _ | m <;> rw [hm] at hcase
    · cases hcase
    · cases hcase
      exact ⟨sp.2, hsp, p, hp, m, hm, rfl, rmatch_stop_le p line m hm⟩

/-- Witness for C5: "timeline:" is recognised for section timeline, and a
leading non-header line is dropped. -/
theorem segmenter_scan_order_and_drops_leading_witness :
    find_section "timeline: twelve months".toList =
      (section_headers.flatMap (fun sp => sp.2.map (fun p => (sp.1, p)))).findSome?
        (fun np => (rmatch np.2 "timeline: twelve months".toList).map
          (fun m => (np.1, m.stop))) ∧
    (∃ pats, ("timeline".toList, pats) ∈ section_headers ∧ ∃ p ∈ pats,
      ∃ m : MatchRes, rmatch p "timeline: twelve months".toList = some m ∧
        m.stop = 8 ∧ 8 ≤ "timeline: twelve months".toList.length) ∧
    (["an unrecognised preamble line".toList] ++ ["scope of work".toList]).foldl
        extract_step ⟨initSections, none, []⟩ =
      ["scope of work".toList].foldl extract_step ⟨initSections, none, []⟩ :=
  segmenter_scan_order_and_drops_leading "timeline: twelve months".toList
    "timeline".toList 8 ["an unrecognised preamble line".toList]
    ["scope of work".toList] (by decide) (by decide)

/-! ### Empty-header-section machinery (claim C3) -/

/-- The lines actually processed by `extract_sections`: stripped and
non-empty (the loop strips each line and skips blank ones). -/
def effLines (t : Str) : List Str :=
  ((splitNL t).map pstrip).filter (fun l => !l.isEmpty)

lemma extract_step_pstrip (st : ExtState) (raw : Str) :
    extract_step st (pstrip raw) = extract_step st raw := by
  unfold extract_step
  rw [pstrip_idem]

lemma foldl_extract_step_eff : ∀ (lines : List Str) (st : ExtState),
    lines.foldl extract_step st =
      ((lines.map pstrip).filter (fun l => !l.isEmpty)).foldl extract_step st
  | [], st => rfl
  | l :: t, st => by
    rw [List.foldl_cons, List.map_cons, List.filter_cons]
    by_cases he : pstrip l = []
    · rw [extract_step_empty st l he, he]
      simp only [List.isEmpty_nil, Bool.not_true, Bool.false_eq_true, if_false]
      exact foldl_extract_step_eff t st
    · rw [if_pos (by simp [List.isEmpty_iff, he]), List.foldl_cons, extract_step_pstrip]
      exact foldl_extract_step_eff t (extract_step st l)

lemma effLines_stripped (t l : Str) (hl : l ∈ effLines t) :
    pstrip l = l ∧ l ≠ [] := by
  unfold effLines at hl
  have hne := List.of_mem_filter hl
  have hmem := List.mem_of_mem_filter hl
  rcases List.mem_map.mp hmem with ⟨piece, _, hpiece⟩
  constructor
  · rw [← hpiece]
    exact pstrip_idem piece
  · intro he
    rw [he] at hne
    cases hne

lemma getSec_saveSec_ne (st : ExtState) (s : Str) (h : st.cur ≠ some s) :
    getSec (saveSec st) s = getSec st.secs s := by
  unfold saveSec
  rcases hc : st.cur with _ | c
  · rfl
  · have hcs : ¬(s = c) := fun he => h (by rw [hc, he])
    dsimp only
    split
    · rfl
    · rw [getSec_setSec, if_neg hcs]

lemma extract_step_header (st : ExtState) (raw s2 : Str) (k2 : Nat)
    (hs : pstrip raw ≠ []) (hf : find_section (pstrip raw) = some (s2, k2)) :
    extract_step st raw = ⟨saveSec st, some s2,
      if (pstrip ((pstrip raw).drop k2)).isEmpty then []
      else [pstrip ((pstrip raw).drop k2)]⟩ := by
  unfold extract_step
  rw [if_neg (by simp only [List.isEmpty_iff]; exact hs), hf]

lemma fold_keeps_empty_section (s : Str) : ∀ (lines : List Str) (st : ExtState),
    (∀ l ∈ lines, (find_section (pstrip l)).map Prod.fst ≠ some s) →
    getSec st.secs s = some [] → st.cur ≠ some s →
    getSec ((lines.foldl extract_step st).secs) s = some [] ∧
      (lines.foldl extract_step st).cur ≠ some s
  | [], st, _, hsec, hcur => ⟨hsec, hcur⟩
  | l :: t, st, hall, hsec, hcur => by
    rw [List.foldl_cons]
    have htail : ∀ x ∈ t, (find_section (pstrip x)).map Prod.fst ≠ some s :=
      fun x hx => hall x (List.mem_cons_of_mem l hx)
    have hstep : getSec (extract_step st l).secs s = some [] ∧
        (extract_step st l).cur ≠ some s := by
      obtain ⟨msecs, mcur, macc⟩ := st
      by_cases he : pstrip l = []
      · rw [extract_step_empty _ l he]
        exact ⟨hsec, hcur⟩
      · rcases hf : find_section (pstrip l) with _ | ⟨s2, k2⟩
        · rcases mcur with _ | c
          · rw [extract_step_body_none msecs macc l hf]
            exact ⟨hsec, hcur⟩
          · rw [extract_step_body_some msecs c macc l he hf]
            exact ⟨hsec, hcur⟩
        · have hs2 : s2 ≠ s := by
            intro he2
            exact hall l (List.mem_cons_self l t)
              (by rw [hf, he2]; rfl)
          rw [extract_step_header _ l s2 k2 he hf]
          refine ⟨?_, ?_⟩
          · rw [getSec_saveSec_ne _ s hcur]
            exact hsec
          · intro hcon
            exact hs2 (by cases hcon; rfl)
    exact fold_keeps_empty_section s t (extract_step st l) htail hstep.1 hstep.2

lemma sectionNames_eq_critical : sectionNames = CRITICAL_SECTIONS := rfl

lemma missing_of_getSec_empty (m : List (Str × Str)) (s : Str)
    (hmem : s ∈ CRITICAL_SECTIONS) (h : getSec m s = some []) :
    missingIssue s ∈ check_missing_sections m := by
  unfold check_missing_sections
  apply List.mem_filterMap.mpr
  refine ⟨s, hmem, ?_⟩
  rw [h]
  rfl

/-- C3 (amended): if some effective line `ℓ` of the input exactly matches
section `s`'s header (nothing after the matched token) and is immediately
followed by another recognised header or the end of input, and no other
effective line opens section `s`, and the primary pass leaves some section
non-empty (so the keyword fallback is not triggered), then the extracted
section map binds `s` to the empty string and `check_missing_sections`
raises a Critical missing-section issue for `s`. -/
theorem empty_header_section_missing
    (t s ℓ : Str) (k : Nat) (pre post : List Str)
    (hsplit : effLines t = pre ++ ℓ :: post)
    (hfind : find_section ℓ = some (s, k))
    (hafter : pstrip (ℓ.drop k) = [])
    (hpre : ∀ l ∈ pre, (find_section (pstrip l)).map Prod.fst ≠ some s)
    (hpost : ∀ l ∈ post, (find_section (pstrip l)).map Prod.fst ≠ some s)
    (hnext : post = [] ∨ ∃ l' rest, post = l' :: rest ∧ (find_section (pstrip l')).isSome)
    (hsome : ¬(extract_sections_primary t).all (fun p => p.2.isEmpty)) :
    getSec (extract_sections t) s = some [] ∧
    missingIssue s ∈ check_missing_sections (extract_sections t) := by
  have hmem : s ∈ sectionNames := find_section_name_mem ℓ s k hfind
  have hprim : getSec (extract_sections_primary t) s = some [] := by
    have hstrip : ∀ l ∈ effLines t, pstrip l = l ∧ l ≠ [] :=
      fun l hl => effLines_stripped t l hl
    have hfold : extract_sections_primary t =
        saveSec ((effLines t).foldl extract_step ⟨initSections, none, []⟩) := by
      unfold extract_sections_primary effLines
      rw [foldl_extract_step_eff]
    rw [hfold, hsplit, List.foldl_append, List.foldl_cons]
    have hst1 := fold_keeps_empty_section s pre ⟨initSections, none, []⟩ hpre
      (getSec_init_of_mem s hmem) (by intro hcon; cases hcon)
    set st1 := pre.foldl extract_step ⟨initSections, none, []⟩ with hst1def
    have hlmem : ℓ ∈ effLines t := by
      rw [hsplit]
      exact List.mem_append_right pre (List.mem_cons_self ℓ post)
    have hlstrip := hstrip ℓ hlmem
    have hst2 : extract_step st1 ℓ = ⟨saveSec st1, some s, []⟩ :=
      extract_step_header_empty st1 ℓ s k (by rw [hlstrip.1]; exact hlstrip.2)
        (by rw [hlstrip.1]; exact hfind) (by rw [hlstrip.1]; exact hafter)
    rw [hst2]
    have hsec2 : getSec (saveSec st1) s = some [] := by
      rw [getSec_saveSec_ne st1 s hst1.2]
      exact hst1.1
    rcases hnext with hpost_nil | ⟨l', rest, hrest, hl'⟩
    · subst hpost_nil
      rw [List.foldl_nil, saveSec_acc_nil]
      exact hsec2
    · subst hrest
      have hl'mem : l' ∈ effLines t := by
        rw [hsplit]
        exact List.mem_append_right pre
          (List.mem_cons_of_mem ℓ (List.mem_cons_self l' rest))
      have hl'strip := hstrip l' hl'mem
      rcases hf' : find_section (pstrip l') with _ | ⟨s2, k2⟩
      · rw [hf'] at hl'
        cases hl'
      · have hs2 : s2 ≠ s := by
          intro he2
          exact hpost l' (List.mem_cons_self l' rest) (by rw [hf', he2]; rfl)
        rw [List.foldl_cons,
          extract_step_header ⟨saveSec st1, some s, []⟩ l' s2 k2
            (by rw [hl'strip.1] at hf' ⊢; exact hl'strip.2) hf']
        have hrest_inv := fold_keeps_empty_section s rest
          ⟨saveSec ⟨saveSec st1, some s, []⟩, some s2,
            if (pstrip ((pstrip l').drop k2)).isEmpty then []
            else [pstrip ((pstrip l').drop k2)]⟩
          (fun x hx => hpost x (List.mem_cons_of_mem l' hx))
          (by rw [saveSec_acc_nil]; exact hsec2)
          (by intro hcon; exact hs2 (by cases hcon; rfl))
        rw [getSec_saveSec_ne _ s hrest_inv.2]
        exact hrest_inv.1
  have hext : extract_sections t = extract_sections_primary t := by
    unfold extract_sections
    rw [if_neg hsome]
  rw [hext]
  exact ⟨hprim, missing_of_getSec_empty _ s (sectionNames_eq_critical ▸ hmem) hprim⟩

/-- Witness for C3 (amended): "timeline" header immediately followed by a
"scope of work" header; the timeline section is empty and flagged. -/
theorem empty_header_section_missing_witness :
    getSec (extract_sections "timeline\nscope of work\nthe work is hard".toList)
      "timeline".toList = some [] ∧
    missingIssue "timeline".toList ∈ check_missing_sections
      (extract_sections "timeline\nscope of work\nthe work is hard".toList) :=
  empty_header_section_missing "timeline\nscope of work\nthe work is hard".toList
    "timeline".toList "timeline".toList 8 []
    ["scope of work".toList, "the work is hard".toList]
    (by decide) (by decide) (by decide) (by decide) (by decide)
    (Or.inr ⟨"scope of work".toList, ["the work is hard".toList], rfl, by decide⟩)
    (by decide)

/-- Witness for C9 with the "scope of work" header and bodies "alpha",
"beta". -/
theorem repeated_header_replaces_body_witness :
    getSec (extract_sections_primary
      (joinNL ["scope of work".toList, "alpha".toList, "scope of work".toList,
        "beta".toList])) "scope".toList = some "beta".toList ∧
    getSec (extract_sections_primary
      (joinNL ["scope of work".toList, "alpha".toList, "scope of work".toList]))
      "scope".toList = some "alpha".toList :=
  repeated_header_replaces_body "scope of work".toList "alpha".toList "beta".toList
    "scope".toList 13 (by decide) (by decide) (by decide) (by decide) (by decide)
    (by decide) (by decide) (by decide) (by decide) (by decide) (by decide)
    (by decide) (by decide)

/-! ### Character membership and line facts for clean_text (claims C2, C8) -/

/-- The lines kept by `clean_text` before whitespace collapsing: stripped,
non-empty, not matching a header/footer pattern. -/
def cleanLines (s : Str) : List Str :=
  ((splitNL s).map pstrip).filter (fun l => !l.isEmpty && !is_header_footer l)

lemma rstripDrop_sublist : ∀ l : Str, (rstripDrop l).Sublist l
  | [] => List.Sublist.refl []
  | d :: r => by
    rw [rstripDrop_cons]
    rcases hr : rstripDrop r with _ | ⟨h1, t1⟩
    · dsimp only
      split
      · exact List.nil_sublist _
      · exact List.Sublist.cons₂ d (List.nil_sublist r)
    · dsimp only
      exact List.Sublist.cons₂ d (hr ▸ rstripDrop_sublist r)

lemma pstrip_sublist (l : Str) : (pstrip l).Sublist l :=
  (rstripDrop_sublist _).trans (List.dropWhile_sublist _)

lemma mem_pstrip {c : Char} {l : Str} (h : c ∈ pstrip l) : c ∈ l :=
  (pstrip_sublist l).subset h

lemma splitNL_mem_chars : ∀ (s : Str) (l : Str), l ∈ splitNL s → ∀ c ∈ l, c ∈ s
  | [], l, hl, c, hc => by
    simp [splitNL] at hl
    rw [hl] at hc
    cases hc
  | d :: r, l, hl, c, hc => by
    rw [splitNL_cons] at hl
    by_cases hd : d = '\n'
    · rw [if_pos hd] at hl
      rcases List.mem_cons.mp hl with he | ht
      · rw [he] at hc
        cases hc
      · exact List.mem_cons_of_mem d (splitNL_mem_chars r l ht c hc)
    · rw [if_neg hd] at hl
      rcases hs : splitNL r with _ | ⟨h1, t1⟩
      · exact absurd hs (splitNL_ne_nil r)
      · rw [hs] at hl
        rcases List.mem_cons.mp hl with he | ht
        · subst he
          rcases List.mem_cons.mp hc with he2 | ht2
          · exact he2 ▸ List.mem_cons_self d r
          · exact List.mem_cons_of_mem d
              (splitNL_mem_chars r h1 (hs ▸ List.mem_cons_self h1 t1) c ht2)
        · exact List.mem_cons_of_mem d
            (splitNL_mem_chars r l (hs ▸ List.mem_cons_of_mem h1 ht) c hc)

lemma cleanLines_mem (s l : Str) (hl : l ∈ cleanLines s) :
    l ≠ [] ∧ is_header_footer l = false ∧ pstrip l = l ∧ '\n' ∉ l ∧
    (∀ c ∈ l, c ∈ s) ∧
    (∀ c, l.head? = some c → isPySpace c = false) ∧
    (∀ c, l.getLast? = some c → isPySpace c = false) := by
  unfold cleanLines at hl
  have hcond := List.of_mem_filter hl
  have hmem := List.mem_of_mem_filter hl
  rcases List.mem_map.mp hmem with ⟨piece, hpiece_mem, hpiece⟩
  have hstrip : pstrip l = l := by
    rw [← hpiece]
    exact pstrip_idem piece
  have hcond' : l.isEmpty = false ∧ is_header_footer l = false := by
    simpa using hcond
  have hne : l ≠ [] := by
    intro he
    rw [he] at hcond'
    cases hcond'.1
  have hhf : is_header_footer l = false := hcond'.2
  refine ⟨hne, hhf, hstrip, ?_, ?_, ?_, ?_⟩
  · intro hnl
    rw [← hpiece] at hnl
    exact splitNL_no_nl s piece hpiece_mem (mem_pstrip hnl)
  · intro c hc
    rw [← hpiece] at hc
    exact splitNL_mem_chars s piece hpiece_mem c (mem_pstrip hc)
  · intro c hc
    rw [← hpiece] at hc
    exact pstrip_head_not piece c hc
  · intro c hc
    rw [← hpiece] at hc
    exact pstrip_getLast_not piece c hc

/-! ### Whitespace-collapse facts -/

lemma collapseWsAux_chars : ∀ (f : Bool) (l : Str) (c : Char),
    c ∈ collapseWsAux f l → c = ' ' ∨ c ∈ l
  | f, [], c, h => by cases h
  | f, d :: r, c, h => by
    unfold collapseWsAux at h
    split at h
    · split at h
      · rcases collapseWsAux_chars true r c h with hs | hm
        · exact Or.inl hs
        · exact Or.inr (List.mem_cons_of_mem d hm)
      · rcases List.mem_cons.mp h with he | ht
        · exact Or.inl he
        · rcases collapseWsAux_chars true r c ht with hs | hm
          · exact Or.inl hs
          · exact Or.inr (List.mem_cons_of_mem d hm)
    · rcases List.mem_cons.mp h with he | ht
      · exact Or.inr (he ▸ List.mem_cons_self d r)
      · rcases collapseWsAux_chars false r c ht with hs | hm
        · exact Or.inl hs
        · exact Or.inr (List.mem_cons_of_mem d hm)

lemma collapseWsAux_cons (f : Bool) (d : Char) (r : Str) :
    collapseWsAux f (d :: r) =
      if isHT d then (if f then collapseWsAux true r else ' ' :: collapseWsAux true r)
      else d :: collapseWsAux false r := rfl

lemma collapseWsAux_cons_ht (f : Bool) (d : Char) (r : Str) (hd : isHT d = true) :
    collapseWsAux f (d :: r) =
      if f then collapseWsAux true r else ' ' :: collapseWsAux true r := by
  rw [collapseWsAux_cons, if_pos hd]

lemma collapseWsAux_cons_not_ht (f : Bool) (d : Char) (r : Str) (hd : isHT d = false) :
    collapseWsAux f (d :: r) = d :: collapseWsAux false r := by
  rw [collapseWsAux_cons, if_neg (by rw [hd]; simp)]

lemma collapseWsAux_append_nl : ∀ (f : Bool) (a b : Str),
    collapseWsAux f (a ++ '\n' :: b) = collapseWsAux f a ++ '\n' :: collapseWsAux false b
  | f, [], b => by
    rw [List.nil_append, collapseWsAux_cons_not_ht f '\n' b (by decide)]
    rfl
  | f, d :: a', b => by
    rw [List.cons_append]
    by_cases hd : isHT d
    · rw [collapseWsAux_cons_ht f d _ hd, collapseWsAux_cons_ht f d a' hd]
      by_cases hf : f
      · rw [if_pos hf, if_pos hf, collapseWsAux_append_nl true a' b]
      · rw [if_neg hf, if_neg hf, collapseWsAux_append_nl true a' b]
        rfl
    · rw [collapseWsAux_cons_not_ht f d _ (Bool.of_not_eq_true hd),
        collapseWsAux_cons_not_ht f d a' (Bool.of_not_eq_true hd),
        collapseWsAux_append_nl false a' b]
      rfl

lemma joinNL_cons (l : Str) (ls : List Str) (h : ls ≠ []) :
    joinNL (l :: ls) = l ++ '\n' :: joinNL ls := by
  rcases ls with _ | ⟨x, t⟩
  · exact absurd rfl h
  · rfl

lemma collapse_joinNL : ∀ L : List Str,
    collapseWs (joinNL L) = joinNL (L.map (collapseWsAux false))
  | [] => rfl
  | [l] => rfl
  | l :: l2 :: t => by
    rw [joinNL_cons l (l2 :: t) (by simp), List.map_cons,
      joinNL_cons (collapseWsAux false l) _ (by simp)]
    unfold collapseWs
    rw [collapseWsAux_append_nl false l (joinNL (l2 :: t))]
    have := collapse_joinNL (l2 :: t)
    unfold collapseWs at this
    rw [this]

lemma collapse_last : ∀ (f : Bool) (l : Str), l ≠ [] →
    (∀ z, l.getLast? = some z → isPySpace z = false) →
    collapseWsAux f l ≠ [] ∧
      ∀ w, (collapseWsAux f l).getLast? = some w → isPySpace w = false
  | f, [], hne, _ => absurd rfl hne
  | f, [d], _, hlast => by
    have hd : isPySpace d = false := hlast d (List.getLast?_singleton d)
    have hht : isHT d = false := by
      unfold isHT
      unfold isPySpace at hd
      rcases Bool.or_eq_false_iff.mp hd with ⟨h1, h2⟩
      rcases Bool.or_eq_false_iff.mp h1 with ⟨h3, h4⟩
      rcases Bool.or_eq_false_iff.mp h3 with ⟨h5, h6⟩
      rcases Bool.or_eq_false_iff.mp h5 with ⟨h7, h8⟩
      rcases Bool.or_eq_false_iff.mp h7 with ⟨h9, h10⟩
      rw [h9, h10]
      rfl
    rw [collapseWsAux_cons_not_ht f d [] hht]
    refine ⟨by simp, ?_⟩
    intro w hw
    rw [show collapseWsAux false ([] : Str) = [] from rfl] at hw
    rw [List.getLast?_singleton] at hw
    cases hw
    exact hd
  | f, d :: e :: r, _, hlast => by
    have hlast' : ∀ z, (e :: r).getLast? = some z → isPySpace z = false := by
      intro z hz
      exact hlast z (by rw [List.getLast?_cons_cons]; exact hz)
    by_cases hd : isHT d
    · rw [collapseWsAux_cons_ht f d (e :: r) hd]
      have ih := collapse_last true (e :: r) (by simp) hlast'
      by_cases hf : f
      · rw [if_pos hf]
        exact ih
      · rw [if_neg hf]
        refine ⟨by simp, ?_⟩
        intro w hw
        rcases hx : collapseWsAux true (e :: r) with _ | ⟨x, xs⟩
        · exact absurd hx ih.1
        · rw [hx, List.getLast?_cons_cons] at hw
          exact ih.2 w (by rw [hx]; exact hw)
    · rw [collapseWsAux_cons_not_ht f d (e :: r) (Bool.of_not_eq_true hd)]
      have ih := collapse_last false (e :: r) (by simp) hlast'
      refine ⟨by simp, ?_⟩
      intro w hw
      rcases hx : collapseWsAux false (e :: r) with _ | ⟨x, xs⟩
      · exact absurd hx ih.1
      · rw [hx, List.getLast?_cons_cons] at hw
        exact ih.2 w (by rw [hx]; exact hw)

/-! ### joinNL head/last facts and the clean_text decomposition -/

lemma joinNL_ne_nil : ∀ L : List Str, L ≠ [] → (∀ l ∈ L, l ≠ []) → joinNL L ≠ []
  | [], h, _ => absurd rfl h
  | [l], _, hl => hl l (List.mem_cons_self l [])
  | l :: l2 :: t, _, hl => by
    rw [joinNL_cons l _ (by simp)]
    simp

lemma joinNL_chars : ∀ (L : List Str) (c : Char),
    c ∈ joinNL L → c = '\n' ∨ ∃ l ∈ L, c ∈ l
  | [], c, h => by cases h
  | [l], c, h => Or.inr ⟨l, List.mem_cons_self l [], h⟩
  | l :: l2 :: t, c, h => by
    rw [joinNL_cons l _ (by simp)] at h
    rcases List.mem_append.mp h with h1 | h2
    · exact Or.inr ⟨l, List.mem_cons_self l _, h1⟩
    · rcases List.mem_cons.mp h2 with he | ht
      · exact Or.inl he
      · rcases joinNL_chars (l2 :: t) c ht with hn | ⟨x, hx, hcx⟩
        · exact Or.inl hn
        · exact Or.inr ⟨x, List.mem_cons_of_mem l hx, hcx⟩

lemma joinNL_head_not (L : List Str)
    (h : ∀ l ∈ L, l ≠ [] ∧ ∀ c, l.head? = some c → isPySpace c = false) :
    ∀ c, (joinNL L).head? = some c → isPySpace c = false := by
  rcases L with _ | ⟨l, ls⟩
  · intro c hc
    cases hc
  · intro c hc
    rcases ls with _ | ⟨l2, t⟩
    · exact (h l (List.mem_cons_self l [])).2 c hc
    · rw [joinNL_cons l _ (by simp), List.head?_append] at hc
      rcases hl : l with _ | ⟨d, r⟩
      · exact absurd hl (h l (List.mem_cons_self l _)).1
      · rw [hl] at hc
        have hred : (some d).or ('\n' :: joinNL (l2 :: t)).head? = some d := rfl
        rw [show ((d :: r : Str)).head? = some d from rfl, hred] at hc
        cases hc
        exact (h l (List.mem_cons_self l _)).2 c (by rw [hl]; rfl)

lemma getLast?_cons_exists : ∀ (x : Char) (xs : Str), ∃ y, (x :: xs).getLast? = some y
  | x, [] => ⟨x, rfl⟩
  | x, z :: t => by
    rw [List.getLast?_cons_cons]
    exact getLast?_cons_exists z t

lemma joinNL_getLast_not : ∀ L : List Str,
    (∀ l ∈ L, l ≠ [] ∧ ∀ c, l.getLast? = some c → isPySpace c = false) →
    ∀ c, (joinNL L).getLast? = some c → isPySpace c = false
  | [], _, c, hc => by cases hc
  | [l], h, c, hc => (h l (List.mem_cons_self l [])).2 c hc
  | l :: l2 :: t, h, c, hc => by
    rw [joinNL_cons l _ (by simp), List.getLast?_append] at hc
    have htail : ∀ x ∈ l2 :: t, x ≠ [] ∧
        ∀ c, x.getLast? = some c → isPySpace c = false :=
      fun x hx => h x (List.mem_cons_of_mem l hx)
    have hJ : joinNL (l2 :: t) ≠ [] :=
      joinNL_ne_nil _ (by simp) (fun x hx => (htail x hx).1)
    rcases hj : joinNL (l2 :: t) with _ | ⟨x, xs⟩
    · exact absurd hj hJ
    · rw [hj, List.getLast?_cons_cons] at hc
      rcases getLast?_cons_exists x xs with ⟨y, hy⟩
      rw [hy] at hc
      have hred : (some y).or (l.getLast?) = some y := rfl
      rw [hred] at hc
      cases hc
      exact joinNL_getLast_not (l2 :: t) htail c (by rw [hj]; exact hy)

lemma isHT_false_of_not_space (c : Char) (h : isPySpace c = false) : isHT c = false := by
  unfold isPySpace at h
  unfold isHT
  simp only [Bool.or_eq_false_iff, decide_eq_false_iff_not] at h ⊢
  tauto

lemma collapse_line_facts (l : Str) (hne : l ≠ [])
    (hhead : ∀ c, l.head? = some c → isPySpace c = false)
    (hlast : ∀ c, l.getLast? = some c → isPySpace c = false) :
    collapseWsAux false l ≠ [] ∧
    (∀ c, (collapseWsAux false l).head? = some c → isPySpace c = false) ∧
    (∀ c, (collapseWsAux false l).getLast? = some c → isPySpace c = false) := by
  rcases hl : l with _ | ⟨c0, r⟩
  · exact absurd hl hne
  · have hc0 : isPySpace c0 = false := hhead c0 (by rw [hl]; rfl)
    have hht : isHT c0 = false := isHT_false_of_not_space c0 hc0
    have hlast' := collapse_last false (c0 :: r) (by simp) (by rw [← hl]; exact hlast)
    rw [collapseWsAux_cons_not_ht false c0 r hht]
    refine ⟨by simp, ?_, ?_⟩
    · intro c hc
      rw [show (c0 :: collapseWsAux false r).head? = some c0 from rfl] at hc
      cases hc
      exact hc0
    · intro c hc
      exact hlast'.2 c (by rw [collapseWsAux_cons_not_ht false c0 r hht]; exact hc)

lemma clean_text_decomp (s : Str) (hall : ∀ c ∈ s, allowedChar c = true) :
    clean_text s = joinNL ((cleanLines s).map (collapseWsAux false)) := by
  by_cases hs : s = []
  · subst hs
    rfl
  · unfold clean_text
    rw [if_neg (by simp only [List.isEmpty_iff]; exact hs)]
    show pstrip ((collapseWs (joinNL (cleanLines s))).filter allowedChar) = _
    rw [collapse_joinNL (cleanLines s)]
    have hfacts : ∀ m ∈ (cleanLines s).map (collapseWsAux false),
        m ≠ [] ∧ (∀ c, m.head? = some c → isPySpace c = false) ∧
        (∀ c, m.getLast? = some c → isPySpace c = false) := by
      intro m hm
      rcases List.mem_map.mp hm with ⟨l, hl, hlm⟩
      rcases cleanLines_mem s l hl with ⟨hne, _, _, _, _, hhead, hlast⟩
      rw [← hlm]
      exact collapse_line_facts l hne hhead hlast
    have hallM : ∀ c ∈ joinNL ((cleanLines s).map (collapseWsAux false)),
        allowedChar c = true := by
      intro c hc
      rcases joinNL_chars _ c hc with hn | ⟨m, hm, hcm⟩
      · rw [hn]
        decide
      · rcases List.mem_map.mp hm with ⟨l, hl, hlm⟩
        rw [← hlm] at hcm
        rcases collapseWsAux_chars false l c hcm with hsp | hcl
        · rw [hsp]
          decide
        · rcases cleanLines_mem s l hl with ⟨_, _, _, _, hchars, _, _⟩
          exact hall c (hchars c hcl)
    rw [List.filter_eq_self.mpr hallM]
    exact pstrip_eq_self _
      (joinNL_head_not _ (fun m hm => ⟨(hfacts m hm).1, (hfacts m hm).2.1⟩))
      (joinNL_getLast_not _ (fun m hm => ⟨(hfacts m hm).1, (hfacts m hm).2.2⟩))

/-! ### Blank lines and the fallback classifier (claim C8) -/

/-- Does the text, split on newlines the way the code splits it, contain
a blank line?  The empty text has no lines at all. -/
def noBlankLines (t : Str) : Bool :=
  t.isEmpty || (splitNL t).all (fun l => !l.isEmpty)

/-- Does the text contain the two-character separator `\n\n`? -/
def hasNN : Str → Bool
  | [] => false
  | [_] => false
  | c :: d :: r => (c = '\n' && d = '\n') || hasNN (d :: r)

lemma splitNN_cons_cons (c d : Char) (r : Str) :
    splitNN (c :: d :: r) =
      if c = '\n' && d = '\n' then [] :: splitNN r
      else
        match splitNN (d :: r) with
        | [] => [[c]]
        | h :: t => (c :: h) :: t := rfl

lemma splitNN_eq_self_of_no_nn : ∀ t : Str, hasNN t = false → splitNN t = [t]
  | [], _ => rfl
  | [c], _ => rfl
  | c :: d :: r, h => by
    unfold hasNN at h
    rcases Bool.or_eq_false_iff.mp h with ⟨h1, h2⟩
    rw [splitNN_cons_cons, if_neg (by rw [h1]; simp),
      splitNN_eq_self_of_no_nn (d :: r) h2]

lemma hasNN_blank : ∀ t : Str, hasNN t = true → [] ∈ (splitNL t).tail
  | [], h => by cases h
  | [c], h => by cases h
  | c :: d :: r, h => by
    unfold hasNN at h
    rcases Bool.or_eq_true_iff.mp h with hcd | ht
    · have hpair : c = '\n' ∧ d = '\n' := by simpa using hcd
      rw [splitNL_cons, if_pos hpair.1, hpair.2, splitNL_cons, if_pos rfl]
      exact List.mem_cons_self [] _
    · have ih := hasNN_blank (d :: r) ht
      by_cases hc : c = '\n'
      · rw [splitNL_cons, if_pos hc]
        exact List.mem_of_mem_tail ih
      · rw [splitNL_cons, if_neg hc]
        rcases hs : splitNL (d :: r) with _ | ⟨h1, t1⟩
        · exact absurd hs (splitNL_ne_nil _)
        · rw [hs] at ih
          exact ih

lemma noBlank_no_nn (t : Str) (h : noBlankLines t = true) : hasNN t = false := by
  cases hnn : hasNN t
  · rfl
  · exfalso
    have hb := hasNN_blank t hnn
    unfold noBlankLines at h
    rcases Bool.or_eq_true_iff.mp h with he | hall
    · rw [List.isEmpty_iff.mp he] at hnn
      cases hnn
    · have := List.all_eq_true.mp hall [] (List.mem_of_mem_tail hb)
      simp at this

lemma fbAdd_id_of_not_mem (k para : Str) : ∀ m : List (Str × Str),
    k ∉ m.map Prod.fst → fbAdd m k para = m
  | [], _ => rfl
  | p :: t, h => by
    have hp : ¬(p.1 = k) :=
      fun he => h (he ▸ List.mem_map_of_mem Prod.fst (List.mem_cons_self p t))
    have ih := fbAdd_id_of_not_mem k para t
      (fun ht => h (by rw [List.map_cons]; exact List.mem_cons_of_mem p.1 ht))
    unfold fbAdd at ih ⊢
    rw [List.map_cons, ih]
    rw [if_neg hp]

lemma fbAdd_countP_le (k para : Str) : ∀ m : List (Str × Str),
    (m.map Prod.fst).Nodup → m.countP (fun p => !p.2.isEmpty) = 0 →
    (fbAdd m k para).countP (fun p => !p.2.isEmpty) ≤ 1
  | [], _, _ => by simp [fbAdd]
  | p :: t, hnd, hcnt => by
    rw [List.map_cons, List.nodup_cons] at hnd
    rw [List.countP_cons] at hcnt
    have hpe : (!p.2.isEmpty) = false := by
      by_cases hb : (!p.2.isEmpty) = true
      · rw [if_pos hb] at hcnt
        omega
      · exact Bool.of_not_eq_true hb
    have h1 : t.countP (fun p => !p.2.isEmpty) = 0 := by
      rw [hpe] at hcnt
      simpa using hcnt
    unfold fbAdd
    rw [List.map_cons, List.countP_cons]
    by_cases hp : p.1 = k
    · have htail : fbAdd t k para = t := fbAdd_id_of_not_mem k para t (hp ▸ hnd.1)
      unfold fbAdd at htail
      rw [htail, h1]
      have hble : ∀ bb : Bool, (0 + (if bb = true then 1 else 0) : Nat) ≤ 1 := by
        intro bb
        cases bb <;> simp
      exact hble _
    · dsimp only
      rw [if_neg hp, hpe]
      have ih := fbAdd_countP_le k para t hnd.2 h1
      unfold fbAdd at ih
      simpa using ih

lemma initSections_keys_nodup : (initSections.map Prod.fst).Nodup := by
  rw [initSections_map_fst]
  decide

lemma initSections_countP_zero :
    initSections.countP (fun p => !p.2.isEmpty) = 0 := by
  decide

/-- C8 (amended): for inputs containing only allow-list characters (so the
character-stripping pass deletes nothing), `clean_text` produces no blank
lines; and on any text without blank lines the fallback classifier sees a
single paragraph, so it reduces to one `elif`-chain assignment and
populates at most one of the 9 sections.  (On general inputs the claim
fails: removing disallowed characters can leave a blank line, see the
counterexample.) -/
theorem clean_text_no_blank_and_fallback_single
    (s t : Str) (hall : ∀ c ∈ s, allowedChar c = true)
    (hnb : noBlankLines t = true) :
    noBlankLines (clean_text s) = true ∧
    fallback_section_extraction t = fbStep initSections t ∧
    (fallback_section_extraction t).countP (fun p => !p.2.isEmpty) ≤ 1 := by
  have hsingle : splitNN t = [t] := splitNN_eq_self_of_no_nn t (noBlank_no_nn t hnb)
  have hfb : fallback_section_extraction t = fbStep initSections t := by
    unfold fallback_section_extraction
    rw [hsingle, List.foldl_cons, List.foldl_nil]
  refine ⟨?_, hfb, ?_⟩
  · rw [clean_text_decomp s hall]
    rcases hM : (cleanLines s).map (collapseWsAux false) with _ | ⟨m, ms⟩
    · rfl
    · have hfacts : ∀ x ∈ (cleanLines s).map (collapseWsAux false),
          x ≠ [] ∧ '\n' ∉ x := by
        intro x hx
        rcases List.mem_map.mp hx with ⟨l, hl, hlm⟩
        rcases cleanLines_mem s l hl with ⟨hne, _, _, hnl, _, hhead, hlast⟩
        constructor
        · rw [← hlm]
          exact (collapse_line_facts l hne hhead hlast).1
        · intro hmem
          rw [← hlm] at hmem
          rcases collapseWsAux_chars false l '\n' hmem with hsp | hcl
          · cases hsp
          · exact hnl hcl
      unfold noBlankLines
      rw [splitNL_joinNL (m :: ms) (by simp)
        (fun x hx => (hfacts x (hM.symm ▸ hx)).2)]
      apply Bool.or_eq_true_iff.mpr
      right
      apply List.all_eq_true.mpr
      intro x hx
      have hxe := (hfacts x (hM.symm ▸ hx)).1
      simpa [List.isEmpty_iff]
  · rw [hfb]
    unfold fbStep
    rcases hfind : fallback_keywords.find?
        (fun e => e.2.any (fun k => hasSub k (t.map Char.toLower))) with _ | e
    · rw [hfind]
      show initSections.countP (fun p => !p.2.isEmpty) ≤ 1
      rw [initSections_countP_zero]
      omega
    · rw [hfind]
      exact fbAdd_countP_le e.1 t initSections initSections_keys_nodup
        initSections_countP_zero

/-- C8 counterexample: on input whose middle line consists of a single
disallowed character, `clean_text` outputs a blank line, and the fallback
then sees two paragraphs and populates two sections. -/
theorem clean_text_blank_line_counterexample :
    clean_text "the scope here\n@\nthe timeline here".toList =
      "the scope here\n\nthe timeline here".toList ∧
    noBlankLines (clean_text "the scope here\n@\nthe timeline here".toList) = false ∧
    (extract_sections (clean_text "the scope here\n@\nthe timeline here".toList)).countP
      (fun p => !p.2.isEmpty) = 2 :=
  ⟨by decide, by decide, by decide⟩

/-- Witness for C8 (amended) at a concrete allowed-character input and a
concrete blank-line-free fallback input. -/
theorem clean_text_no_blank_and_fallback_single_witness :
    noBlankLines (clean_text "hello world\nthe scope here".toList) = true ∧
    fallback_section_extraction "the scope here".toList =
      fbStep initSections "the scope here".toList ∧
    (fallback_section_extraction "the scope here".toList).countP
      (fun p => !p.2.isEmpty) ≤ 1 :=
  clean_text_no_blank_and_fallback_single "hello world\nthe scope here".toList
    "the scope here".toList (by decide) (by decide)

/-! ### Tame whitespace and clean_text idempotence (claim C2) -/

/-- Inputs with no tab characters and no two consecutive spaces: on these
the whitespace-collapse pass is the identity. -/
def tameWs : Str → Bool
  | [] => true
  | c :: r => !(c = '\t') && !(c = ' ' && r.head? = some ' ') && tameWs r

lemma tameWs_cons (c : Char) (r : Str) :
    tameWs (c :: r) =
      (!(c = '\t') && !(c = ' ' && r.head? = some ' ') && tameWs r) := rfl

lemma tameWs_cons_parts {c : Char} {r : Str} (h : tameWs (c :: r) = true) :
    c ≠ '\t' ∧ ¬(c = ' ' ∧ r.head? = some ' ') ∧ tameWs r = true := by
  rw [tameWs_cons] at h
  simp only [Bool.and_eq_true, Bool.not_eq_true', decide_eq_false_iff_not,
    decide_eq_true_eq, Bool.and_eq_false_iff] at h
  tauto

lemma tameWs_cons_build {c : Char} {r : Str} (h1 : c ≠ '\t')
    (h2 : ¬(c = ' ' ∧ r.head? = some ' ')) (h3 : tameWs r = true) :
    tameWs (c :: r) = true := by
  rw [tameWs_cons]
  simp only [Bool.and_eq_true, Bool.not_eq_true', decide_eq_false_iff_not,
    decide_eq_true_eq]
  exact ⟨⟨h1, by simpa using h2⟩, h3⟩

lemma tame_suffix : ∀ a b : Str, tameWs (a ++ b) = true → tameWs b = true
  | [], _, h => h
  | _ :: a', b, h => tame_suffix a' b (tameWs_cons_parts h).2.2

lemma tame_append_left : ∀ a b : Str, tameWs (a ++ b) = true → tameWs a = true
  | [], _, _ => rfl
  | c :: a', b, h => by
    rcases tameWs_cons_parts h with ⟨h1, h2, h3⟩
    apply tameWs_cons_build h1 ?_ (tame_append_left a' b h3)
    intro ⟨hc, hh⟩
    apply h2
    refine ⟨hc, ?_⟩
    rcases a' with _ | ⟨d, r'⟩
    · cases hh
    · exact hh

lemma rstripDrop_append_exists : ∀ l : Str, ∃ w, l = rstripDrop l ++ w
  | [] => ⟨[], rfl⟩
  | d :: r => by
    rw [rstripDrop_cons]
    rcases hr : rstripDrop r with _ | ⟨h1, t1⟩
    · dsimp only
      rcases rstripDrop_append_exists r with ⟨w, hw⟩
      rw [hr] at hw
      by_cases hd : isPySpace d
      · rw [if_pos hd]
        exact ⟨d :: r, rfl⟩
      · rw [if_neg hd]
        have hw' : r = w := by simpa using hw
        exact ⟨w, by rw [List.singleton_append, hw']⟩
    · dsimp only
      rcases rstripDrop_append_exists r with ⟨w, hw⟩
      rw [hr] at hw
      exact ⟨w, by rw [List.cons_append, ← hw]⟩

lemma tame_pstrip (l : Str) (h : tameWs l = true) : tameWs (pstrip l) = true := by
  unfold pstrip
  have hdrop : tameWs (l.dropWhile isPySpace) = true := by
    have := List.takeWhile_append_dropWhile isPySpace l
    exact tame_suffix _ _ (by rw [this]; exact h)
  rcases rstripDrop_append_exists (l.dropWhile isPySpace) with ⟨w, hw⟩
  exact tame_append_left _ w (by rw [← hw]; exact hdrop)

lemma splitNL_head_head : ∀ (r h1 : Str) (t1 : List Str),
    splitNL r = h1 :: t1 → ∀ x, h1.head? = some x → r.head? = some x
  | [], h1, t1, hs, x, hx => by
    rw [show splitNL [] = [[]] from rfl] at hs
    cases hs
    cases hx
  | d :: r', h1, t1, hs, x, hx => by
    rw [splitNL_cons] at hs
    by_cases hd : d = '\n'
    · rw [if_pos hd] at hs
      cases hs
      cases hx
    · rw [if_neg hd] at hs
      rcases hr : splitNL r' with _ | ⟨h2, t2⟩
      · exact absurd hr (splitNL_ne_nil r')
      · rw [hr] at hs
        cases hs
        cases hx
        rfl

lemma tame_splitNL : ∀ s : Str, tameWs s = true → ∀ l ∈ splitNL s, tameWs l = true
  | [], _, l, hl => by
    rw [show splitNL [] = [[]] from rfl] at hl
    rcases List.mem_cons.mp hl with he | ht
    · rw [he]
      rfl
    · cases ht
  | c :: r, h, l, hl => by
    rcases tameWs_cons_parts h with ⟨h1, h2, h3⟩
    rw [splitNL_cons] at hl
    by_cases hc : c = '\n'
    · rw [if_pos hc] at hl
      rcases List.mem_cons.mp hl with he | ht
      · rw [he]
        rfl
      · exact tame_splitNL r h3 l ht
    · rw [if_neg hc] at hl
      rcases hr : splitNL r with _ | ⟨h1', t1⟩
      · exact absurd hr (splitNL_ne_nil r)
      · rw [hr] at hl
        rcases List.mem_cons.mp hl with he | ht
        · rw [he]
          apply tameWs_cons_build h1 ?_
            (tame_splitNL r h3 h1' (hr ▸ List.mem_cons_self h1' t1))
          intro ⟨hcs, hh⟩
          exact h2 ⟨hcs, splitNL_head_head r h1' t1 hr ' ' hh⟩
        · exact tame_splitNL r h3 l (hr ▸ List.mem_cons_of_mem h1' ht)

lemma isHT_cases (c : Char) (h : isHT c = true) : c = ' ' ∨ c = '\t' := by
  unfold isHT at h
  simpa using h

lemma collapse_eq_self_of_tame : ∀ l : Str, tameWs l = true →
    collapseWsAux false l = l ∧
      (l.head? ≠ some ' ' → collapseWsAux true l = l)
  | [], _ => ⟨rfl, fun _ => rfl⟩
  | c :: r, h => by
    rcases tameWs_cons_parts h with ⟨h1, h2, h3⟩
    have ih := collapse_eq_self_of_tame r h3
    constructor
    · by_cases hht : isHT c
      · rcases isHT_cases c hht with hsp | htb
        · subst hsp
          rw [collapseWsAux_cons_ht false ' ' r hht, if_neg (by simp)]
          have hrh : r.head? ≠ some ' ' := fun hh => h2 ⟨rfl, hh⟩
          rw [ih.2 hrh]
        · exact absurd htb h1
      · rw [collapseWsAux_cons_not_ht false c r (Bool.of_not_eq_true hht), ih.1]
    · intro hhd
      have hcs : c ≠ ' ' := fun he => hhd (by rw [he]; rfl)
      have hht : isHT c = false := by
        unfold isHT
        simp [hcs, h1]
      rw [collapseWsAux_cons_not_ht true c r hht, ih.1]

lemma tame_append_nl : ∀ a b : Str, tameWs a = true → tameWs b = true →
    tameWs (a ++ '\n' :: b) = true
  | [], b, _, hb => by
    rw [List.nil_append]
    exact tameWs_cons_build (by decide) (by simp) hb
  | c :: a', b, ha, hb => by
    rcases tameWs_cons_parts ha with ⟨h1, h2, h3⟩
    rw [List.cons_append]
    apply tameWs_cons_build h1 ?_ (tame_append_nl a' b h3 hb)
    intro ⟨hcs, hh⟩
    rcases a' with _ | ⟨d, r'⟩
    · rw [List.nil_append, show (('\n' :: b : Str)).head? = some '\n' from rfl] at hh
      cases hh
    · rw [List.cons_append, show ((d :: (r' ++ '\n' :: b) : Str)).head? = some d from rfl] at hh
      exact h2 ⟨hcs, by rw [show ((d :: r' : Str)).head? = some d from rfl]; exact hh⟩

lemma tame_joinNL : ∀ L : List Str, (∀ l ∈ L, tameWs l = true) →
    tameWs (joinNL L) = true
  | [], _ => rfl
  | [l], h => h l (List.mem_cons_self l [])
  | l :: l2 :: t, h => by
    rw [joinNL_cons l _ (by simp)]
    exact tame_append_nl l _ (h l (List.mem_cons_self l _))
      (tame_joinNL (l2 :: t) (fun x hx => h x (List.mem_cons_of_mem l hx)))

lemma map_id_of_mem {α : Type} (f : α → α) : ∀ L : List α,
    (∀ a ∈ L, f a = a) → L.map f = L
  | [], _ => rfl
  | a :: t, h => by
    rw [List.map_cons, h a (List.mem_cons_self a t),
      map_id_of_mem f t (fun x hx => h x (List.mem_cons_of_mem a hx))]

/-- C2 (amended): `clean_text` is idempotent on inputs built from
allow-list characters that contain no tab and no two consecutive spaces.
(In general it is not idempotent — see the counterexample: deleting a
disallowed character can leave a blank line that a second pass removes.) -/
theorem clean_text_idempotent_on_tame (s : Str)
    (hall : ∀ c ∈ s, allowedChar c = true) (htame : tameWs s = true) :
    clean_text (clean_text s) = clean_text s := by
  have hLtame : ∀ l ∈ cleanLines s, tameWs l = true := by
    intro l hl
    unfold cleanLines at hl
    rcases List.mem_map.mp (List.mem_of_mem_filter hl) with ⟨piece, hpm, hpe⟩
    rw [← hpe]
    exact tame_pstrip _ (tame_splitNL s htame piece hpm)
  have hmapid : (cleanLines s).map (collapseWsAux false) = cleanLines s :=
    map_id_of_mem _ _ (fun l hl => (collapse_eq_self_of_tame l (hLtame l hl)).1)
  have hct : clean_text s = joinNL (cleanLines s) := by
    rw [clean_text_decomp s hall, hmapid]
  by_cases hLnil : cleanLines s = []
  · rw [hct, hLnil]
    rfl
  · have hallJ : ∀ c ∈ joinNL (cleanLines s), allowedChar c = true := by
      intro c hc
      rcases joinNL_chars _ c hc with hn | ⟨l, hl, hcl⟩
      · rw [hn]
        decide
      · rcases cleanLines_mem s l hl with ⟨_, _, _, _, hchars, _, _⟩
        exact hall c (hchars c hcl)
    have hct2 : clean_text (joinNL (cleanLines s)) =
        joinNL ((cleanLines (joinNL (cleanLines s))).map (collapseWsAux false)) :=
      clean_text_decomp _ hallJ
    have hCL2 : cleanLines (joinNL (cleanLines s)) = cleanLines s := by
      have hsplit : splitNL (joinNL (cleanLines s)) = cleanLines s :=
        splitNL_joinNL _ hLnil (fun l hl => (cleanLines_mem s l hl).2.2.2.1)
      show ((splitNL (joinNL (cleanLines s))).map pstrip).filter
        (fun l => !l.isEmpty && !is_header_footer l) = cleanLines s
      rw [hsplit, map_id_of_mem _ _ (fun l hl => (cleanLines_mem s l hl).2.2.1)]
      apply List.filter_eq_self.mpr
      intro l hl
      rcases cleanLines_mem s l hl with ⟨hne, hhf, _, _, _, _, _⟩
      simp [List.isEmpty_iff, hne, hhf]
    rw [hct, hct2, hCL2, hmapid]

/-- C2 counterexample: `clean_text` is not idempotent.  On `"a\n@\nb"`
the first pass deletes the disallowed `@` leaving a blank middle line,
and the second pass then deletes that line. -/
theorem clean_text_not_idempotent :
    clean_text (clean_text "a\n@\nb".toList) ≠ clean_text "a\n@\nb".toList ∧
    clean_text "a\n@\nb".toList = "a\n\nb".toList ∧
    clean_text (clean_text "a\n@\nb".toList) = "a\nb".toList :=
  ⟨by decide, by decide, by decide⟩

/-- Witness for C2 (amended) at a concrete tame input. -/
theorem clean_text_idempotent_on_tame_witness :
    clean_text (clean_text "Scope of Work\n the builder digs.".toList) =
      clean_text "Scope of Work\n the builder digs.".toList :=
  clean_text_idempotent_on_tame "Scope of Work\n the builder digs.".toList
    (by decide) (by decide)

/-- C3 counterexample: the first line exactly matches the scope header
with no body before the next recognised header, yet the final map binds
scope to a non-empty body (a later repeated scope header refills it) and
no missing-section issue is raised for scope. -/
theorem empty_header_not_missing_counterexample :
    effLines "scope\ntimeline\nscope of work\nfoundation details for the build".toList =
      ["scope".toList, "timeline".toList, "scope of work".toList,
        "foundation details for the build".toList] ∧
    find_section "scope".toList = some ("scope".toList, 5) ∧
    pstrip ("scope".toList.drop 5) = [] ∧
    (find_section "timeline".toList).isSome = true ∧
    getSec (extract_sections
        "scope\ntimeline\nscope of work\nfoundation details for the build".toList)
      "scope".toList = some "foundation details for the build".toList ∧
    (check_missing_sections (extract_sections
        "scope\ntimeline\nscope of work\nfoundation details for the build".toList)).countP
      (fun i => i.sec = "scope".toList) = 0 :=
  ⟨by decide, by decide, by decide, by decide, by decide, by decide⟩

end ScopeGuard
